import Mathlib

/-!
# mapf-visualizer: solution-file parser and playback engine

A shallow embedding of `src/main.cpp` (the line loop of `main`, its four
regular expressions and the coordinate scan) and of `src/ofApp.cpp`
(`ofApp::ofApp`, `ofApp::update` and the agent part of `ofApp::draw`),
followed by theorems about them.

Conventions.
* A `std::string` is a `List Char`; the input file is the list of the strings
  returned by successive `getline` calls.
* `float` values are rationals (`ℚ`). In `ofApp::update` the `float` sum is
  rounded to binary32 before it is compared and stored; in `ofApp::draw` the
  arithmetic is exact.
* `int` values produced by `std::stoi` are naturals bounded by `INT_MAX`.
* C++ behaviour that is an uncaught exception or undefined shows up as a
  `Fault`.
* The classes `Graph`, `Node`, `Pose` and `Orientation` are declared in headers
  that are not part of the sources at hand. `Graph`, `Node` and `Pose` are plain
  records of the members the code reads; `Orientation` is a type parameter `O`
  together with the three members the code uses (`OrientationApi`).
-/

set_option autoImplicit false

namespace MapfVisualizer

/-! ## Data model -/

/-- A grid node; only the members `x` and `y` are read by the code. -/
structure Node where
  x : Int
  y : Int
deriving DecidableEq

/-- The members of `Graph` used by `main`: `width`, `height` and the table `U`
of node pointers, where a blocked cell holds `nullptr` (`none`). -/
structure Graph where
  width : Nat
  height : Nat
  U : List (Option Node)
deriving DecidableEq

/-- The members of `Orientation` used by the code: the constant
`Orientation::NONE`, `Orientation::from_string` and `Orientation::to_angle`. -/
structure OrientationApi (O : Type) where
  NONE : O
  from_string : List Char → O
  to_angle : O → ℚ

/-- A `Pose(v, o)`: a node pointer (possibly null) and an orientation. -/
structure Pose (O : Type) where
  v : Option Node
  o : O
deriving DecidableEq

/-- A `Config` is a `std::vector<Pose>`. -/
abbrev Config (O : Type) := List (Pose O)

/-- A `Solution` is a `std::vector<Config>`. -/
abbrev Solution (O : Type) := List (Config O)

/-- The reference path: `history_size` (`none` until a `history_size=` line
assigns it) and, per agent id, the list of forecast entries. -/
structure ReferencePath (O : Type) where
  history_size : Option Nat
  paths : List (List (Config O))
deriving DecidableEq

/-- Ways in which the C++ code leaves defined behaviour while parsing. -/
inductive Fault where
  /-- `std::stoi` throws `std::out_of_range`. -/
  | stoiOutOfRange
  /-- Signed overflow in `G.width * y + x` or in `current_agent + 1`. -/
  | intOverflow
  /-- `G.U[i]` with `i` not below `G.U.size()`. -/
  | indexOutOfBounds
  /-- The model of a loop ran out of fuel (shown below never to happen). -/
  | fuel
deriving DecidableEq

/-! ## Character classes and string helpers -/

/-- The class `\d`. -/
def isDigit (c : Char) : Bool := decide (48 ≤ c.toNat) && decide (c.toNat ≤ 57)

/-- The class `[A-Z]`. -/
def isUpper (c : Char) : Bool := decide (65 ≤ c.toNat) && decide (c.toNat ≤ 90)

/-- The class `\s`: space, `\t`, `\n`, `\v`, `\f`, `\r`. -/
def isSpace (c : Char) : Bool :=
  decide (c.toNat = 32) || (decide (9 ≤ c.toNat) && decide (c.toNat ≤ 13))

/-- The class `[XY]`. -/
def isXY (c : Char) : Bool := c == 'X' || c == 'Y'

/-- `std::regex_replace(line, std::regex(R"(\s+$)"), "")`: the leftmost place
from which only whitespace follows is where the line is cut. -/
def rstrip : List Char → List Char
  | [] => []
  | c :: cs => if (c :: cs).all isSpace then [] else c :: rstrip cs

/-- `line.find(pat) != std::string::npos`. -/
def containsSub (pat : List Char) : List Char → Bool
  | [] => pat.isPrefixOf []
  | c :: cs => pat.isPrefixOf (c :: cs) || containsSub pat cs

/-- Removes `pat` from the front of `s` when `s` starts with it. -/
def dropPrefix? : List Char → List Char → Option (List Char)
  | [], s => some s
  | _ :: _, [] => none
  | p :: ps, c :: cs => if p = c then dropPrefix? ps cs else none

/-- The value of a string of decimal digits. -/
def decVal (ds : List Char) : Nat :=
  ds.foldl (fun acc d => 10 * acc + (d.toNat - 48)) 0

/-- `INT_MAX` for a 32-bit `int`. -/
def INT_MAX : Nat := 2147483647

/-- `std::stoi` on a non-empty string of digits. -/
def stoi (ds : List Char) : Except Fault Nat :=
  if decVal ds ≤ INT_MAX then .ok (decVal ds) else .error .stoiOutOfRange

/-! ## The regular expressions of `main.cpp` -/

/-- What the code reads from a match of `r_pos`: the captures `m[1]`, `m[2]`,
`m[3]` (`none` when `m[3].matched` is false) and `m[0].length()`. -/
structure PosMatch where
  x : List Char
  y : List Char
  tag : Option (List Char)
  len : Nat
deriving DecidableEq

/-- The group `([XY]{1}_[A-Z]{4,5})` with exactly `n` letters, followed by the
closing `\),`. Returns the capture. -/
def matchTag (n : Nat) : List Char → Option (List Char)
  | c :: '_' :: r =>
    if isXY c && decide ((r.take n).length = n) && (r.take n).all isUpper then
      match r.drop n with
      | ')' :: ',' :: _ => some (c :: '_' :: r.take n)
      | _ => none
    else none
  | _ => none

/-- The part `([XY]{1}_[A-Z]{4,5})?\),` of `r_pos`: the greedy quantifier tries
five letters, then four, then the group is skipped. Returns `m[3]` and the
number of characters consumed. -/
def matchTail (r : List Char) : Option (Option (List Char) × Nat) :=
  match matchTag 5 r with
  | some t => some (some t, t.length + 2)
  | none =>
    match matchTag 4 r with
    | some t => some (some t, t.length + 2)
    | none =>
      match r with
      | ')' :: ',' :: _ => some (none, 2)
      | _ => none

/-- The part `,?([XY]{1}_[A-Z]{4,5})?\),` of `r_pos`: the optional comma is
taken first when present, and given back when the rest then fails. -/
def matchAfterY (r : List Char) : Option (Option (List Char) × Nat) :=
  match r with
  | ',' :: r5 =>
    match matchTail r5 with
    | some (t, k) => some (t, k + 1)
    | none => matchTail r
  | _ => matchTail r

/-- A match of `r_pos = \((\d+),(\d+),?([XY]{1}_[A-Z]{4,5})?\),` starting at the
first character of `s`. Each `\d+` takes the longest run of digits: a shorter
run is followed by a digit, which no continuation of the pattern accepts. -/
def matchPosAt (s : List Char) : Option PosMatch :=
  match s with
  | '(' :: r1 =>
    let xs := r1.takeWhile isDigit
    if xs.isEmpty then none else
    match r1.dropWhile isDigit with
    | ',' :: r3 =>
      let ys := r3.takeWhile isDigit
      if ys.isEmpty then none else
      match matchAfterY (r3.dropWhile isDigit) with
      | some (t, k) => some ⟨xs, ys, t, 1 + xs.length + 1 + ys.length + k⟩
      | none => none
    | _ => none
  | _ => none

/-- `std::regex_search(iter, search_end, m, r_pos)` on the characters of the
window: the leftmost match. -/
def regexSearchPos : List Char → Option PosMatch
  | [] => none
  | c :: cs =>
    match matchPosAt (c :: cs) with
    | some m => some m
    | none => regexSearchPos cs

/-- `std::regex_match(line, results, r_history_size)` with
`r_history_size = history_size=(\d+)`; returns `results[1]`. -/
def matchHistorySize (line : List Char) : Option (List Char) :=
  match dropPrefix? "history_size=".toList line with
  | some ds => if !ds.isEmpty && ds.all isDigit then some ds else none
  | none => none

/-- `std::regex_match(line, results, r_step)` with `r_step = step(\d+):`;
returns `results[1]`. -/
def matchStep (line : List Char) : Option (List Char) :=
  match dropPrefix? "step".toList line with
  | some r =>
    if !(r.takeWhile isDigit).isEmpty && decide (r.dropWhile isDigit = [':'])
    then some (r.takeWhile isDigit) else none
  | none => none

/-- `std::regex_search(line, results, r_agent)` with `r_agent = ^agent(\d+):`;
returns `results[1]`. -/
def matchAgent (line : List Char) : Option (List Char) :=
  match dropPrefix? "agent".toList line with
  | some r =>
    if !(r.takeWhile isDigit).isEmpty && decide ((r.dropWhile isDigit).head? = some ':')
    then some (r.takeWhile isDigit) else none
  | none => none

/-! ## The coordinate scan and the line loop of `main` -/

/-- The expression `G.U[G.width * y + x]`. -/
def lookupNode (G : Graph) (x y : Nat) : Except Fault (Option Node) :=
  if G.width * y + x ≤ INT_MAX then
    match G.U.get? (G.width * y + x) with
    | some v => .ok v
    | none => .error .indexOutOfBounds
  else .error .intOverflow

/-- The body of the `if (std::regex_search(...))` branch up to `push_back`:
the pose built from a match. -/
def poseOfMatch {O : Type} (api : OrientationApi O) (G : Graph) (m : PosMatch) :
    Except Fault (Pose O) :=
  match stoi m.x with
  | .error e => .error e
  | .ok x =>
    match stoi m.y with
    | .error e => .error e
    | .ok y =>
      match lookupNode G x y with
      | .error e => .error e
      | .ok v =>
        .ok ⟨v, match m.tag with
                | some t => api.from_string t
                | none => api.NONE⟩

/-- The loop `while (iter < line.cend())` shared by both branches. `rest` is
the text from `iter` to the end of the line, `c` the Config built so far. The
cursor advances by `m[0].length()`. -/
def scanPoses {O : Type} (api : OrientationApi O) (G : Graph) :
    Nat → List Char → Config O → Except Fault (Config O)
  | _, [], c => .ok c
  | 0, _ :: _, _ => .error .fuel
  | fuel + 1, a :: as, c =>
    match regexSearchPos ((a :: as).take 128) with
    | some m =>
      match poseOfMatch api G m with
      | .error e => .error e
      | .ok p => scanPoses api G fuel ((a :: as).drop m.len) (c ++ [p])
    | none => .ok c

/-- The scan of a whole line, starting with `iter = line.cbegin()` and an empty
Config. -/
def scanLine {O : Type} (api : OrientationApi O) (G : Graph) (line : List Char) :
    Except Fault (Config O) :=
  scanPoses api G line.length line []

/-- The local variables of `main` that the line loop reads and writes. -/
structure ParseState (O : Type) where
  solution : Solution O
  reference_path : ReferencePath O
  in_reference_section : Bool
  current_agent : Int
  current_step : Int
deriving DecidableEq

/-- The state before the first line is read. -/
def ParseState.init (O : Type) : ParseState O :=
  ⟨[], ⟨none, []⟩, false, -1, -1⟩

/-- The statement `reference_path.paths.resize(current_agent + 1)` under its
guard `current_agent >= reference_path.paths.size()`. The sum is computed in
`int`: at `current_agent = INT_MAX` it overflows (the program then ends in
`std::length_error`). Exhaustion of memory by a large id is not modelled. -/
def growPaths {O : Type} (paths : List (List (Config O))) (agent : Nat) :
    Except Fault (List (List (Config O))) :=
  if paths.length ≤ agent then
    if agent + 1 ≤ INT_MAX then
      .ok (paths ++ List.replicate (agent + 1 - paths.length) [])
    else .error .intOverflow
  else .ok paths

/-- The statement `reference_path.paths[current_agent].push_back(c)`. -/
def pushForecast {O : Type} (paths : List (List (Config O))) (agent : Nat) (c : Config O) :
    List (List (Config O)) :=
  match paths.get? agent with
  | some l => paths.set agent (l ++ [c])
  | none => paths

/-- One iteration of `while (getline(solution_file, line))`. -/
def parseLine {O : Type} (api : OrientationApi O) (G : Graph) (st : ParseState O)
    (raw : List Char) : Except Fault (ParseState O) :=
  let line := rstrip raw
  if containsSub "local_guidance=".toList line then
    .ok { st with in_reference_section := true }
  else
    match (if st.in_reference_section then matchHistorySize line else none) with
    | some ds =>
      match stoi ds with
      | .error e => .error e
      | .ok h => .ok { st with reference_path := { st.reference_path with history_size := some h } }
    | none =>
      match (if st.in_reference_section then matchStep line else none) with
      | some ds =>
        match stoi ds with
        | .error e => .error e
        | .ok s => .ok { st with current_agent := -1, current_step := (s : Int) }
      | none =>
        match (if st.in_reference_section then matchAgent line else none) with
        | some ds =>
          match stoi ds with
          | .error e => .error e
          | .ok a =>
            match growPaths st.reference_path.paths a with
            | .error e => .error e
            | .ok grown =>
              match scanLine api G line with
              | .error e => .error e
              | .ok c =>
                .ok { st with
                      current_agent := (a : Int),
                      reference_path :=
                        { st.reference_path with
                          paths := if c.isEmpty then grown else pushForecast grown a c } }
        | none =>
          if !st.in_reference_section && containsSub ":(".toList line then
            match scanLine api G line with
            | .error e => .error e
            | .ok c => .ok { st with solution := st.solution ++ [c] }
          else .ok st

/-- The line loop from a given state. -/
def parseFrom {O : Type} (api : OrientationApi O) (G : Graph) :
    ParseState O → List (List Char) → Except Fault (ParseState O)
  | st, [] => .ok st
  | st, l :: ls =>
    match parseLine api G st l with
    | .error e => .error e
    | .ok st' => parseFrom api G st' ls

/-- The whole line loop of `main` on the lines of the solution file. -/
def parseLines {O : Type} (api : OrientationApi O) (G : Graph) (lines : List (List Char)) :
    Except Fault (ParseState O) :=
  parseFrom api G (ParseState.init O) lines

/-! ## `ofApp.cpp`: construction, `update` and the agent part of `draw` -/

/-- Conversion of a `size_t` value to `int`. -/
def toInt32 (n : Nat) : Int :=
  if n % 4294967296 < 2147483648 then ((n % 4294967296 : Nat) : Int)
  else ((n % 4294967296 : Nat) : Int) - 4294967296

/-- The member initialiser `T(P->size() - 1)`: the subtraction is done in
`size_t` (64 bits), the result converted to `int`. -/
def ofApp_T {O : Type} (P : Solution O) : Int :=
  toInt32 ((P.length + 18446744073709551615) % 18446744073709551616)

/-- The member initialiser `N(P->front().size())`; `front()` of an empty vector
is undefined (`none`). -/
def ofApp_N {O : Type} (P : Solution O) : Option Int :=
  P.head?.map fun c => toInt32 c.length

/-- The member initialiser `goals(P->back())`; `back()` of an empty vector is
undefined (`none`). -/
def ofApp_goals {O : Type} (P : Solution O) : Option (Config O) :=
  P.getLast?

/-- The end of `main`: after the line loop the solution and the reference path
are handed to `new ofApp(&G, &solution, &reference_path, ...)`. The result is
the pair of arguments with which the constructor is called; no statement stands
between the loop and the call. -/
def main_handoff {O : Type} (api : OrientationApi O) (G : Graph) (lines : List (List Char)) :
    Except Fault (Solution O × ReferencePath O) :=
  match parseLines api G lines with
  | .error e => .error e
  | .ok st => .ok (st.solution, st.reference_path)

/-- Rounding of a rational to the nearest integer, ties to the even one. -/
def roundHalfEven (q : ℚ) : Int :=
  if q - (⌊q⌋ : ℚ) < 1 / 2 then ⌊q⌋
  else if 1 / 2 < q - (⌊q⌋ : ℚ) then ⌊q⌋ + 1
  else if ⌊q⌋ % 2 = 0 then ⌊q⌋
  else ⌊q⌋ + 1

/-- The spacing of the binary32 (`float`) values around `x`: `2 ^ (e - 23)` for
`2 ^ e ≤ |x| < 2 ^ (e + 1)`, with `e` not below `-126` (subnormal values are
spaced by `2 ^ (-149)`). -/
def ulpF32 (x : ℚ) : ℚ := (2 : ℚ) ^ (max (Int.log 2 |x|) (-126) - 23)

/-- The binary32 value nearest to `x`, ties to the even significand, with the
exponent unbounded above. -/
def roundFinite (x : ℚ) : ℚ :=
  (if x < 0 then -1 else 1) * ((roundHalfEven (|x| / ulpF32 x) : Int) : ℚ) * ulpF32 x

/-- `FLT_MAX`, the largest finite `float`: `(2 ^ 24 - 1) * 2 ^ 104`. -/
def FLT_MAX : ℚ := 340282346638528859811704183484516925440

/-- The value of a `float` expression: a finite number or an infinity. (The sum
of two finite numbers is never a NaN.) -/
inductive FloatVal where
  | finite (v : ℚ)
  | posInf
  | negInf
deriving DecidableEq

/-- The `float` sum `x + y` of two finite `float` values: the exact sum rounded
to binary32 (round to nearest, ties to even), an infinity when the rounded
value lies beyond `FLT_MAX`. -/
def float_add (x y : ℚ) : FloatVal :=
  if FLT_MAX < roundFinite (x + y) then .posInf
  else if roundFinite (x + y) < -FLT_MAX then .negInf
  else .finite (roundFinite (x + y))

/-- The conversion of the `int` `T` to `float`. -/
def float_of_int (T : Int) : ℚ := roundFinite (T : ℚ)

/-- The members of `ofApp` that `update` reads or writes; the two sliders hold
finite `float` values, `cam_z` is the `z` coordinate of the camera position. -/
structure Playback where
  timestep_slider : ℚ
  speed_slider : ℚ
  flg_autoplay : Bool
  flg_loop : Bool
  flg_zoomout : Bool
  flg_zoomin : Bool
  cam_z : ℚ
deriving DecidableEq

/-- The time part of `ofApp::update`: `float t = timestep_slider + speed_slider`
and the statement `if (t <= T)`, in which `T` is converted to `float`. A sum
of `+∞` is not `<= T`. A sum of `-∞` is `<= T` and would be stored, which the
record cannot hold (`none`); it needs a time or speed below `-FLT_MAX / 2`. -/
def advanceTime (T : Int) (s : Playback) : Option Playback :=
  match float_add s.timestep_slider s.speed_slider with
  | .finite t =>
    if t ≤ float_of_int T then some { s with timestep_slider := t }
    else if s.flg_loop then some { s with timestep_slider := 0 }
    else some { s with timestep_slider := float_of_int T }
  | .posInf =>
    if s.flg_loop then some { s with timestep_slider := 0 }
    else some { s with timestep_slider := float_of_int T }
  | .negInf => none

/-- The two zoom statements at the end of `ofApp::update`; they write the
camera position only. The camera height is kept as an exact rational (the
rounding of its products is not modelled). -/
def zoomCamera (s : Playback) : Playback :=
  let s2 := if s.flg_zoomout then { s with cam_z := s.cam_z * (101 / 100) } else s
  if s2.flg_zoomin then { s2 with cam_z := max (s2.cam_z * (99 / 100)) 50 } else s2

/-- The function `ofApp::update`. -/
def update (T : Int) (s : Playback) : Option Playback :=
  if !s.flg_autoplay then some s
  else
    match advanceTime T s with
    | some s1 => some (zoomCamera s1)
    | none => none

/-- The conversion `(int)timestep_slider`: truncation towards zero. -/
def cast_int (t : ℚ) : Int := Int.tdiv t.num (t.den : Int)

/-- The expression `P->at(t)[i]`; `none` where `at` throws or the index is out
of range. -/
def poseAt {O : Type} (P : Solution O) (t : Int) (i : Nat) : Option (Pose O) :=
  if t < 0 then none
  else
    match P.get? t.toNat with
    | some c => c.get? i
    | none => none

/-- The two `if` statements that fold `diff` back by 360. -/
def normDiff (diff : ℚ) : ℚ :=
  let d1 := if diff > 180 then diff - 360 else diff
  if d1 < -180 then d1 + 360 else d1

/-- The heading blend `angle += diff * (timestep_slider - t1)`. -/
def blendAngle (angle angle_next frac : ℚ) : ℚ :=
  angle + normDiff (angle_next - angle) * frac

/-- What `draw` computes for one agent before scaling to the screen: the grid
position, the heading passed to `ofRotateZDeg`, and whether the orientation
marker is drawn (`o != Orientation::NONE`). -/
structure AgentDraw where
  x : ℚ
  y : ℚ
  angle : ℚ
  marker : Bool
deriving DecidableEq

/-- The body of the loop `for (int i = 0; i < N; ++i)` in `ofApp::draw`, from
`auto t1` to the end of `if (t2 <= T)`. `none` stands for a null pointer
dereference or an out-of-range access. -/
def drawAgent {O : Type} [DecidableEq O] (api : OrientationApi O) (P : Solution O) (T : Int)
    (timestep_slider : ℚ) (i : Nat) : Option AgentDraw :=
  let t1 := cast_int timestep_slider
  let t2 := t1 + 1
  match poseAt P t1 i with
  | none => none
  | some p_t1 =>
    match p_t1.v with
    | none => none
    | some v =>
      let o := p_t1.o
      let x : ℚ := v.x
      let y : ℚ := v.y
      let angle := api.to_angle o
      if t2 ≤ T then
        match poseAt P t2 i with
        | none => none
        | some p_t2 =>
          match p_t2.v with
          | none => none
          | some u =>
            let frac := timestep_slider - (t1 : ℚ)
            some ⟨x + ((u.x : ℚ) - x) * frac, y + ((u.y : ℚ) - y) * frac,
                  if o ≠ api.NONE then blendAngle angle (api.to_angle p_t2.o) frac else angle,
                  decide (o ≠ api.NONE)⟩
      else some ⟨x, y, angle, decide (o ≠ api.NONE)⟩

/-- The grid position of a drawn agent. -/
def AgentDraw.pos (d : AgentDraw) : ℚ × ℚ := (d.x, d.y)

/-- The node of the pose `P->at(t)[i]`. -/
def nodeAt {O : Type} (P : Solution O) (t : Int) (i : Nat) : Option Node :=
  match poseAt P t i with
  | some p => p.v
  | none => none

/-! ## A sample orientation vocabulary and graph, for concrete evaluation -/

/-- Modelled from the spec: the `Orientation` enumeration (its header is not
among the sources): `NONE` and four directions named by tags of the shape
`[XY]_[A-Z]{4,5}`. -/
inductive Dir where
  | NONE | X_MINUS | X_PLUS | Y_MINUS | Y_PLUS
deriving DecidableEq

/-- Modelled from the spec: `Orientation::from_string` and
`Orientation::to_angle` for the sample vocabulary; `angleNone` is the number
that `to_angle` gives for `NONE`. -/
def dirApi (angleNone : ℚ) : OrientationApi Dir where
  NONE := Dir.NONE
  from_string := fun s =>
    if s = "X_MINUS".toList then Dir.X_MINUS
    else if s = "X_PLUS".toList then Dir.X_PLUS
    else if s = "Y_MINUS".toList then Dir.Y_MINUS
    else if s = "Y_PLUS".toList then Dir.Y_PLUS
    else Dir.NONE
  to_angle := fun d =>
    match d with
    | Dir.NONE => angleNone
    | Dir.X_PLUS => 0
    | Dir.Y_PLUS => 90
    | Dir.X_MINUS => 180
    | Dir.Y_MINUS => 270

/-- A 3 x 1 grid with a node in every cell. -/
def grid3 : Graph := ⟨3, 1, [some ⟨0, 0⟩, some ⟨1, 0⟩, some ⟨2, 0⟩]⟩

/-- A 3 x 1 grid whose middle cell is blocked. -/
def grid3blocked : Graph := ⟨3, 1, [some ⟨0, 0⟩, none, some ⟨2, 0⟩]⟩

/-! ## Sample plans -/

/-- The two-timestep, two-agent plan of scenario A. -/
def planA : Solution Dir :=
  [[⟨some ⟨0, 0⟩, Dir.NONE⟩, ⟨some ⟨1, 0⟩, Dir.NONE⟩],
   [⟨some ⟨1, 0⟩, Dir.NONE⟩, ⟨some ⟨2, 0⟩, Dir.NONE⟩]]

/-- The plan whose only agent has an orientation at timestep 0 and none at
timestep 1, as parsed from the lines `0:(0,0,X_MINUS),` and `1:(1,0),`. -/
def planMixed : Solution Dir := [[⟨some ⟨0, 0⟩, Dir.X_MINUS⟩], [⟨some ⟨1, 0⟩, Dir.NONE⟩]]

/-- A playback state with `T = 1` in mind: time `0.8f`, speed `0.2f` (the
`float` values nearest to 0.8 and 0.2), playing and looping. -/
def tickState : Playback :=
  ⟨13421773 / 16777216, 13421773 / 67108864, true, true, false, false, 580⟩

/-- A playback state with time `0.5` and speed `0.5 + 2 ^ (-24)`, playing and
looping. -/
def tieState : Playback := ⟨1 / 2, 8388609 / 16777216, true, true, false, false, 580⟩

/-- A playback state with `T = 16777219` in mind: time `16777218`, speed `1`,
playing, not looping. -/
def bigState : Playback := ⟨16777218, 1, true, false, false, false, 580⟩

/-- A playback state with time `0.5` and speed `0.25`, playing and looping. -/
def midState : Playback := ⟨1 / 2, 1 / 4, true, true, false, false, 580⟩

/-! ## The two substrings that `main` searches for -/

/-- The marker that starts the reference section. -/
def markerText : List Char := "local_guidance=".toList

/-- The substring by which a primary-plan line is recognised. -/
def planText : List Char := ":(".toList

/-- The number of Configs that the lines contribute when read from a state in
primary mode: the lines before the first marker line that contain `:(`. -/
def countPlanLines (lines : List (List Char)) : Nat :=
  ((lines.takeWhile fun l => !containsSub markerText l).filter (containsSub planText)).length

/-! ## Well-formed coordinate tokens -/

/-- The text of a capture of `([XY]{1}_[A-Z]{4,5})`. -/
def isTagText : List Char → Bool
  | c :: '_' :: us => isXY c && (decide (us.length = 4) || decide (us.length = 5)) && us.all isUpper
  | _ => false

/-- A coordinate token by its parts: the digits of `x` and `y`, whether the
optional comma is written, and the optional orientation tag. -/
structure Token where
  x : List Char
  y : List Char
  comma : Bool
  tag : Option (List Char)
deriving DecidableEq

/-- The part of a token after the digits of `y`. -/
def Token.tailText (t : Token) : List Char :=
  (if t.comma then [','] else []) ++ ((t.tag.getD []) ++ [')', ','])

/-- The text of a token. -/
def Token.text (t : Token) : List Char :=
  '(' :: (t.x ++ ',' :: (t.y ++ t.tailText))

/-- A token is well formed when `x` and `y` are non-empty digit strings and the
tag, when present, has the shape `[XY]_[A-Z]{4,5}`. -/
def Token.wellFormed (t : Token) : Bool :=
  !t.x.isEmpty && t.x.all isDigit && !t.y.isEmpty && t.y.all isDigit &&
    (match t.tag with
     | some s => isTagText s
     | none => true)

/-- What `r_pos` captures on a token. -/
def Token.toMatch (t : Token) : PosMatch := ⟨t.x, t.y, t.tag, t.text.length⟩

/-- The texts of a list of tokens, one after the other. -/
def concatTexts : List Token → List Char
  | [] => []
  | t :: ts => t.text ++ concatTexts ts

/-! ## Lines of the form prefix, then tokens -/

/-- The index `G.width * y + x` of the cell that a token names. -/
def Token.index (G : Graph) (t : Token) : Nat := G.width * decVal t.y + decVal t.x

/-- A token resolves when its numbers fit an `int` and its index lies within
the node table (the cell itself may be blocked). -/
def Token.resolves (G : Graph) (t : Token) : Bool :=
  decide (decVal t.x ≤ INT_MAX) && decide (decVal t.y ≤ INT_MAX) &&
    decide (t.index G ≤ INT_MAX) && decide (t.index G < G.U.length)

/-- The entry of the node table for the cell of a token: the node at `(x, y)`,
absent when the cell is blocked. -/
def Token.node (G : Graph) (t : Token) : Option Node :=
  match G.U.get? (t.index G) with
  | some v => v
  | none => none

/-- The orientation that a token denotes: that of its tag, `NONE` without. -/
def Token.orientation {O : Type} (api : OrientationApi O) (t : Token) : O :=
  match t.tag with
  | some s => api.from_string s
  | none => api.NONE

/-- The pose that a token denotes. -/
def Token.pose {O : Type} (api : OrientationApi O) (G : Graph) (t : Token) : Pose O :=
  ⟨t.node G, t.orientation api⟩

/-- A line given as a prefix followed by tokens. -/
structure PlanLine where
  pre : List Char
  toks : List Token
deriving DecidableEq

/-- The text of such a line. -/
def PlanLine.text (L : PlanLine) : List Char := L.pre ++ concatTexts L.toks

/-- The Config that the tokens of a line denote. -/
def PlanLine.config {O : Type} (api : OrientationApi O) (G : Graph) (L : PlanLine) : Config O :=
  L.toks.map (Token.pose api G)

/-- The conditions under which the scan reads every token of a line once: the
prefix holds no `(`, and every token is well formed, resolves, is longer than
the prefix and together with the prefix fits the window of 128 characters. -/
def PlanLine.scannable (G : Graph) (L : PlanLine) : Prop :=
  (∀ c ∈ L.pre, c ≠ '(') ∧
  ∀ t ∈ L.toks, t.wellFormed = true ∧ L.pre.length < t.text.length ∧
    L.pre.length + t.text.length ≤ 128 ∧ t.resolves G = true

/-- A primary-plan line within reach of the scan: the prefix ends in `:`, at
least one token follows, the line is not a marker line, and the line is
scannable. -/
def PlanLine.good (G : Graph) (L : PlanLine) : Prop :=
  (∃ p, L.pre = p ++ [':']) ∧ L.toks ≠ [] ∧
  containsSub "local_guidance=".toList L.text = false ∧ L.scannable G

/-! ## Sample tokens and lines -/

/-- The token `(0,0),`. -/
def tok00 : Token := ⟨"0".toList, "0".toList, false, none⟩

/-- The token `(1,0),`. -/
def tok10 : Token := ⟨"1".toList, "0".toList, false, none⟩

/-- The token `(2,0),`. -/
def tok20 : Token := ⟨"2".toList, "0".toList, false, none⟩

/-- The lines `0:(0,0),(1,0),` and `1:(1,0),(2,0),`. -/
def linesA : List PlanLine := [⟨"0:".toList, [tok00, tok10]⟩, ⟨"1:".toList, [tok10, tok20]⟩]

/-- The line `0:` followed by thirty tokens `(0,0),`: 182 characters. -/
def longLine : PlanLine := ⟨"0:".toList, List.replicate 30 tok00⟩

/-- The line `0:(1,0),`. -/
def lineB : PlanLine := ⟨"0:".toList, [tok10]⟩

set_option maxRecDepth 100000

/-! ## Playback: auxiliary facts -/

theorem cast_int_eq_floor (t : ℚ) (h : 0 ≤ t) : cast_int t = ⌊t⌋ := by
  unfold cast_int
  rw [Rat.floor_def, Int.tdiv_eq_ediv (Rat.num_nonneg.mpr h) (by positivity)]

theorem ofApp_T_succ_le_length {O : Type} (P : Solution O) (h : 0 ≤ ofApp_T P) :
    ofApp_T P + 1 ≤ (P.length : Int) := by
  unfold ofApp_T toInt32 at *
  split_ifs at * <;> omega

theorem poseAt_of_shape {O : Type} (P : Solution O) (N i : Nat) (k : Int)
    (hN : ∀ c ∈ P, c.length = N) (hv : ∀ c ∈ P, ∀ p ∈ c, p.v ≠ none)
    (hi : i < N) (hk0 : 0 ≤ k) (hk : k < (P.length : Int)) :
    ∃ p n, poseAt P k i = some p ∧ p.v = some n := by
  have hlt : k.toNat < P.length := by omega
  have hc : P.get? k.toNat = some (P.get ⟨k.toNat, hlt⟩) := List.get?_eq_get hlt
  have hmem : P.get ⟨k.toNat, hlt⟩ ∈ P := List.get_mem _ _ _
  have hi2 : i < (P.get ⟨k.toNat, hlt⟩).length := by rw [hN _ hmem]; exact hi
  have hp : (P.get ⟨k.toNat, hlt⟩).get? i = some ((P.get ⟨k.toNat, hlt⟩).get ⟨i, hi2⟩) :=
    List.get?_eq_get hi2
  have hpm : (P.get ⟨k.toNat, hlt⟩).get ⟨i, hi2⟩ ∈ P.get ⟨k.toNat, hlt⟩ := List.get_mem _ _ _
  have hne := hv _ hmem _ hpm
  obtain ⟨n, hn⟩ := Option.ne_none_iff_exists'.mp hne
  refine ⟨_, n, ?_, hn⟩
  unfold poseAt
  rw [if_neg (by omega), hc]
  exact hp

/-! ## Parser: trimming and substring search -/

theorem isPrefixOf_rstrip (pat : List Char) (hp : ∀ c ∈ pat, isSpace c = false) :
    ∀ l : List Char, pat.isPrefixOf (rstrip l) = pat.isPrefixOf l := by
  induction pat with
  | nil => intro l; simp
  | cons p ps ih =>
    intro l
    cases l with
    | nil => simp [rstrip]
    | cons c cs =>
      have hps : ∀ c ∈ ps, isSpace c = false := fun c hc => hp c (List.mem_cons_of_mem _ hc)
      have hpp : isSpace p = false := hp p (List.mem_cons_self _ _)
      by_cases hall : (c :: cs).all isSpace = true
      · have hc : isSpace c = true := by
          simp only [List.all_cons, Bool.and_eq_true] at hall
          exact hall.1
        have hne : p ≠ c := by
          intro h
          rw [h, hc] at hpp
          exact Bool.noConfusion hpp
        have hb : (p == c) = false := beq_eq_false_iff_ne.mpr hne
        simp [rstrip, hall, List.isPrefixOf, hb]
      · simp only [rstrip, hall]
        simp only [Bool.false_eq_true, if_false, List.isPrefixOf]
        rw [ih hps cs]

theorem containsSub_nil_of_ne (pat : List Char) (hne : pat ≠ []) : containsSub pat [] = false := by
  cases pat with
  | nil => exact absurd rfl hne
  | cons p ps => rfl

theorem containsSub_of_all_space (pat : List Char) (hne : pat ≠ [])
    (hp : ∀ c ∈ pat, isSpace c = false) :
    ∀ l : List Char, l.all isSpace = true → containsSub pat l = false := by
  intro l
  induction l with
  | nil => intro _; exact containsSub_nil_of_ne pat hne
  | cons c cs ih =>
    intro hall
    simp only [List.all_cons, Bool.and_eq_true] at hall
    cases pat with
    | nil => exact absurd rfl hne
    | cons p ps =>
      have hpp : isSpace p = false := hp p (List.mem_cons_self _ _)
      have hne2 : p ≠ c := by
        intro h
        rw [h, hall.1] at hpp
        exact Bool.noConfusion hpp
      have hb : (p == c) = false := beq_eq_false_iff_ne.mpr hne2
      simp [containsSub, List.isPrefixOf, hb, ih hall.2]

theorem containsSub_rstrip (pat : List Char) (hne : pat ≠ [])
    (hp : ∀ c ∈ pat, isSpace c = false) :
    ∀ l : List Char, containsSub pat (rstrip l) = containsSub pat l := by
  intro l
  induction l with
  | nil => simp [rstrip]
  | cons c cs ih =>
    by_cases hall : (c :: cs).all isSpace = true
    · rw [containsSub_of_all_space pat hne hp _ hall]
      simp [rstrip, hall, containsSub_nil_of_ne pat hne]
    · have hr : rstrip (c :: cs) = c :: rstrip cs := by simp [rstrip, hall]
      have hpre := isPrefixOf_rstrip pat hp (c :: cs)
      rw [hr] at hpre
      rw [hr]
      simp only [containsSub]
      rw [hpre, ih]

theorem marker_no_space : ∀ c ∈ markerText, isSpace c = false := by decide

theorem plan_no_space : ∀ c ∈ planText, isSpace c = false := by decide

theorem containsSub_marker_rstrip (l : List Char) :
    containsSub "local_guidance=".toList (rstrip l) = containsSub markerText l :=
  containsSub_rstrip markerText (by decide) marker_no_space l

theorem containsSub_plan_rstrip (l : List Char) :
    containsSub ":(".toList (rstrip l) = containsSub planText l :=
  containsSub_rstrip planText (by decide) plan_no_space l

/-! ## Parser: the loop always stops -/

theorem matchPosAt_len_pos (s : List Char) (m : PosMatch) (h : matchPosAt s = some m) :
    1 ≤ m.len := by
  unfold matchPosAt at h
  split at h
  · simp only at h
    split at h
    · exact Option.noConfusion h
    · split at h
      · split at h
        · exact Option.noConfusion h
        · split at h
          · simp only [Option.some.injEq] at h
            rw [← h]
            simp only
            omega
          · exact Option.noConfusion h
      · exact Option.noConfusion h
  · exact Option.noConfusion h

theorem regexSearchPos_len_pos :
    ∀ (s : List Char) (m : PosMatch), regexSearchPos s = some m → 1 ≤ m.len := by
  intro s
  induction s with
  | nil => intro m h; exact Option.noConfusion h
  | cons c cs ih =>
    intro m h
    unfold regexSearchPos at h
    split at h
    · rename_i m0 hm0
      simp only [Option.some.injEq] at h
      rw [← h]
      exact matchPosAt_len_pos _ _ hm0
    · exact ih m h

theorem stoi_error (ds : List Char) (e : Fault) (h : stoi ds = .error e) :
    e = .stoiOutOfRange := by
  unfold stoi at h
  split at h
  · exact Except.noConfusion h
  · simp only [Except.error.injEq] at h
    exact h.symm

theorem lookupNode_error (G : Graph) (x y : Nat) (e : Fault) (h : lookupNode G x y = .error e) :
    e = .indexOutOfBounds ∨ e = .intOverflow := by
  unfold lookupNode at h
  split at h
  · split at h
    · exact Except.noConfusion h
    · simp only [Except.error.injEq] at h
      exact Or.inl h.symm
  · simp only [Except.error.injEq] at h
    exact Or.inr h.symm

theorem growPaths_error {O : Type} (paths : List (List (Config O))) (agent : Nat) (e : Fault)
    (h : growPaths paths agent = .error e) : e = .intOverflow := by
  unfold growPaths at h
  split at h
  · split at h
    · exact Except.noConfusion h
    · simp only [Except.error.injEq] at h
      exact h.symm
  · exact Except.noConfusion h

theorem poseOfMatch_error {O : Type} (api : OrientationApi O) (G : Graph) (m : PosMatch)
    (e : Fault) (h : poseOfMatch api G m = .error e) : e ≠ .fuel := by
  unfold poseOfMatch at h
  split at h
  · rename_i e1 h1
    simp only [Except.error.injEq] at h
    rw [← h, stoi_error _ _ h1]
    decide
  · split at h
    · rename_i e1 h1
      simp only [Except.error.injEq] at h
      rw [← h, stoi_error _ _ h1]
      decide
    · split at h
      · rename_i e1 h1
        simp only [Except.error.injEq] at h
        rw [← h]
        rcases lookupNode_error _ _ _ _ h1 with h2 | h2 <;> rw [h2] <;> decide
      · exact Except.noConfusion h

theorem scanPoses_fuel {O : Type} (api : OrientationApi O) (G : Graph) :
    ∀ (fuel : Nat) (rest : List Char) (c : Config O),
      rest.length ≤ fuel → scanPoses api G fuel rest c ≠ .error .fuel := by
  intro fuel
  induction fuel with
  | zero =>
    intro rest c hlen
    cases rest with
    | nil => simp [scanPoses]
    | cons a as => simp at hlen
  | succ n ih =>
    intro rest c hlen
    cases rest with
    | nil => simp [scanPoses]
    | cons a as =>
      unfold scanPoses
      split
      · rename_i m hm
        split
        · rename_i e he
          intro hcontra
          simp only [Except.error.injEq] at hcontra
          exact poseOfMatch_error api G m e he hcontra
        · apply ih
          have hpos := regexSearchPos_len_pos _ _ hm
          simp only [List.length_drop, List.length_cons] at *
          omega
      · simp

theorem scanLine_fuel {O : Type} (api : OrientationApi O) (G : Graph) (line : List Char) :
    scanLine api G line ≠ .error .fuel :=
  scanPoses_fuel api G line.length line [] (Nat.le_refl _)

/-! ## Parser: what one line does to the Solution -/

theorem parseLine_primary {O : Type} (api : OrientationApi O) (G : Graph) (st : ParseState O)
    (raw : List Char) (h : st.in_reference_section = false) :
    parseLine api G st raw =
      if containsSub markerText raw then .ok { st with in_reference_section := true }
      else if containsSub planText raw then
        match scanLine api G (rstrip raw) with
        | .error e => .error e
        | .ok c => .ok { st with solution := st.solution ++ [c] }
      else .ok st := by
  unfold parseLine
  simp only [h, containsSub_marker_rstrip, containsSub_plan_rstrip]
  simp

theorem parseLine_reference {O : Type} (api : OrientationApi O) (G : Graph) (st st' : ParseState O)
    (raw : List Char) (h : st.in_reference_section = true)
    (hok : parseLine api G st raw = .ok st') :
    st'.solution = st.solution ∧ st'.in_reference_section = true := by
  unfold parseLine at hok
  simp only [h, if_true, Bool.not_true, Bool.false_and, Bool.false_eq_true, if_false] at hok
  repeat' split at hok
  all_goals first
    | exact Except.noConfusion hok
    | (simp only [Except.ok.injEq] at hok
       rw [← hok]
       exact ⟨rfl, h⟩)
    | (simp only [Except.ok.injEq] at hok
       rw [← hok]
       exact ⟨rfl, rfl⟩)

theorem parseLine_ne_fuel {O : Type} (api : OrientationApi O) (G : Graph) (st : ParseState O)
    (raw : List Char) : parseLine api G st raw ≠ .error .fuel := by
  intro hbad
  cases hsec : st.in_reference_section with
  | false =>
    rw [parseLine_primary api G st raw hsec] at hbad
    split at hbad
    · exact Except.noConfusion hbad
    · split at hbad
      · split at hbad
        · rename_i e he
          simp only [Except.error.injEq] at hbad
          rw [hbad] at he
          exact scanLine_fuel api G _ he
        · exact Except.noConfusion hbad
      · exact Except.noConfusion hbad
  | true =>
    unfold parseLine at hbad
    simp only [hsec, if_true, Bool.not_true, Bool.false_and, Bool.false_eq_true, if_false] at hbad
    split at hbad
    · exact Except.noConfusion hbad
    · split at hbad
      · split at hbad
        · rename_i e he
          simp only [Except.error.injEq] at hbad
          rw [hbad] at he
          exact absurd (stoi_error _ _ he) (by decide)
        · exact Except.noConfusion hbad
      · split at hbad
        · split at hbad
          · rename_i e he
            simp only [Except.error.injEq] at hbad
            rw [hbad] at he
            exact absurd (stoi_error _ _ he) (by decide)
          · exact Except.noConfusion hbad
        · split at hbad
          · split at hbad
            · rename_i e he
              simp only [Except.error.injEq] at hbad
              rw [hbad] at he
              exact absurd (stoi_error _ _ he) (by decide)
            · split at hbad
              · rename_i e he
                simp only [Except.error.injEq] at hbad
                rw [hbad] at he
                exact absurd (growPaths_error _ _ _ he) (by decide)
              · split at hbad
                · rename_i e he
                  simp only [Except.error.injEq] at hbad
                  rw [hbad] at he
                  exact scanLine_fuel api G _ he
                · exact Except.noConfusion hbad
          · exact Except.noConfusion hbad

theorem parseFrom_solution_length {O : Type} (api : OrientationApi O) (G : Graph) :
    ∀ (lines : List (List Char)) (st st' : ParseState O),
      parseFrom api G st lines = .ok st' →
      st'.solution.length =
        st.solution.length + (if st.in_reference_section then 0 else countPlanLines lines) := by
  intro lines
  induction lines with
  | nil =>
    intro st st' h
    simp only [parseFrom, Except.ok.injEq] at h
    rw [← h]
    cases st.in_reference_section <;> simp [countPlanLines]
  | cons l ls ih =>
    intro st st' h
    unfold parseFrom at h
    split at h
    · exact Except.noConfusion h
    · rename_i st1 h1
      have hrec := ih st1 st' h
      cases hsec : st.in_reference_section with
      | true =>
        obtain ⟨e1, e2⟩ := parseLine_reference api G st st1 l hsec h1
        rw [hrec, e1, e2]
        simp
      | false =>
        rw [parseLine_primary api G st l hsec] at h1
        by_cases hm : containsSub markerText l = true
        · simp only [hm, if_true, Except.ok.injEq] at h1
          rw [hrec, ← h1]
          simp [countPlanLines, hm]
        · by_cases hp : containsSub planText l = true
          · simp only [hm, hp, if_true, Bool.false_eq_true, if_false] at h1
            split at h1
            · exact Except.noConfusion h1
            · simp only [Except.ok.injEq] at h1
              rw [hrec, ← h1]
              simp [countPlanLines, hm, hp, hsec]
              omega
          · simp only [hm, hp, Bool.false_eq_true, if_false, Except.ok.injEq] at h1
            rw [hrec, ← h1]
            simp [countPlanLines, hm, hp, hsec]

theorem parseFrom_ne_fuel {O : Type} (api : OrientationApi O) (G : Graph) :
    ∀ (lines : List (List Char)) (st : ParseState O), parseFrom api G st lines ≠ .error .fuel := by
  intro lines
  induction lines with
  | nil => intro st; simp [parseFrom]
  | cons l ls ih =>
    intro st
    unfold parseFrom
    split
    · rename_i e he
      intro hbad
      simp only [Except.error.injEq] at hbad
      rw [hbad] at he
      exact parseLine_ne_fuel api G st l he
    · exact ih _

/-! ## The match of `r_pos` on a well-formed token -/

theorem takeWhile_digits (ds r : List Char) (hd : ds.all isDigit = true)
    (hr : ∀ c r', r = c :: r' → isDigit c = false) :
    (ds ++ r).takeWhile isDigit = ds ∧ (ds ++ r).dropWhile isDigit = r := by
  induction ds with
  | nil =>
    cases r with
    | nil => simp
    | cons c r' => simp [List.takeWhile, List.dropWhile, hr c r' rfl]
  | cons d ds ih =>
    simp only [List.all_cons, Bool.and_eq_true] at hd
    obtain ⟨h1, h2⟩ := ih hd.2
    simp [List.takeWhile, List.dropWhile, hd.1, h1, h2]

theorem matchTag_none_of_not_XY (n : Nat) (c : Char) (r : List Char) (h : isXY c = false) :
    matchTag n (c :: r) = none := by
  cases r with
  | nil => simp [matchTag]
  | cons d r' =>
    unfold matchTag
    split
    · rename_i c' r'' heq
      simp only [List.cons.injEq] at heq
      rw [← heq.1, h]
      simp
    · rfl

theorem matchTag_exact (n : Nat) (c : Char) (us rest : List Char) (hc : isXY c = true)
    (hlen : us.length = n) (hup : us.all isUpper = true) :
    matchTag n (c :: '_' :: (us ++ ')' :: ',' :: rest)) = some (c :: '_' :: us) := by
  have ht : (us ++ ')' :: ',' :: rest).take n = us := by
    rw [← hlen]; simp
  have hdr : (us ++ ')' :: ',' :: rest).drop n = ')' :: ',' :: rest := by
    rw [← hlen]; simp
  simp only [matchTag, ht, hdr, hc, hlen, hup]
  simp

theorem matchTag_five_of_four (c : Char) (us rest : List Char)
    (hlen : us.length = 4) :
    matchTag 5 (c :: '_' :: (us ++ ')' :: ',' :: rest)) = none := by
  have ht : (us ++ ')' :: ',' :: rest).take 5 = us ++ [')'] := by
    rw [List.take_append_eq_append_take, hlen, List.take_of_length_le (by omega)]
    rfl
  have hnot : (us ++ [')']).all isUpper = false := by
    simp only [List.all_append, List.all_cons, List.all_nil, Bool.and_true]
    have : isUpper ')' = false := by decide
    simp [this]
  simp only [matchTag, ht, hnot]
  simp

theorem isTagText_elim (s : List Char) (h : isTagText s = true) :
    ∃ c us, s = c :: '_' :: us ∧ isXY c = true ∧ (us.length = 4 ∨ us.length = 5) ∧
      us.all isUpper = true := by
  unfold isTagText at h
  split at h
  · rename_i c us
    simp only [Bool.and_eq_true, Bool.or_eq_true, decide_eq_true_eq] at h
    exact ⟨c, us, rfl, h.1.1, h.1.2, h.2⟩
  · exact Bool.noConfusion h

theorem Token.tag_cases (t : Token) (hw : t.wellFormed = true) :
    t.tag = none ∨ ∃ c us, t.tag = some (c :: '_' :: us) ∧ isXY c = true ∧
      (us.length = 4 ∨ us.length = 5) ∧ us.all isUpper = true := by
  unfold Token.wellFormed at hw
  simp only [Bool.and_eq_true] at hw
  obtain ⟨_, htag⟩ := hw
  cases htg : t.tag with
  | none => exact Or.inl rfl
  | some s =>
    rw [htg] at htag
    obtain ⟨c, us, hs, h1, h2, h3⟩ := isTagText_elim s htag
    exact Or.inr ⟨c, us, by rw [hs], h1, h2, h3⟩

theorem isXY_not_digit (c : Char) (h : isXY c = true) : isDigit c = false := by
  simp only [isXY, Bool.or_eq_true, beq_iff_eq] at h
  rcases h with h | h <;> rw [h] <;> decide

theorem isXY_ne_comma (c : Char) (h : isXY c = true) : c ≠ ',' := by
  simp only [isXY, Bool.or_eq_true, beq_iff_eq] at h
  rcases h with h | h <;> rw [h] <;> decide

theorem matchTail_token (t : Token) (rest : List Char) (hw : t.wellFormed = true) :
    matchTail ((t.tag.getD []) ++ ')' :: ',' :: rest) =
      some (t.tag, (t.tag.getD []).length + 2) := by
  rcases t.tag_cases hw with htg | ⟨c, us, htg, hc, hlen, hup⟩
  · have hxy : isXY ')' = false := by decide
    rw [htg]
    simp [matchTail, matchTag_none_of_not_XY _ _ _ hxy]
  · rw [htg]
    simp only [Option.getD_some, List.cons_append]
    rcases hlen with h4 | h5
    · simp [matchTail, matchTag_five_of_four c us rest h4, matchTag_exact 4 c us rest hc h4 hup]
    · simp [matchTail, matchTag_exact 5 c us rest hc h5 hup]

theorem matchAfterY_token (t : Token) (rest : List Char) (hw : t.wellFormed = true) :
    matchAfterY (t.tailText ++ rest) = some (t.tag, t.tailText.length) := by
  have hmt := matchTail_token t rest hw
  have hne : ∀ r5, (t.tag.getD []) ++ ')' :: ',' :: rest = ',' :: r5 → False := by
    intro r5 h
    rcases t.tag_cases hw with htg | ⟨c, us, htg, hc, _, _⟩
    · rw [htg] at h
      simp at h
    · rw [htg] at h
      simp only [Option.getD_some, List.cons_append, List.cons.injEq] at h
      exact isXY_ne_comma c hc h.1
  cases hcm : t.comma with
  | true =>
    simp only [Token.tailText, hcm, if_true, List.cons_append, List.nil_append, List.append_assoc]
    simp only [matchAfterY, hmt, List.length_cons, List.length_append, List.length_nil]
  | false =>
    have e : t.tailText ++ rest = (t.tag.getD []) ++ ')' :: ',' :: rest := by
      simp [Token.tailText, hcm]
    have e2 : t.tailText.length = (t.tag.getD []).length + 2 := by
      simp [Token.tailText, hcm]
    rw [e, e2]
    unfold matchAfterY
    split
    · rename_i r5 heq
      exact absurd (hne r5 heq) id
    · exact hmt

theorem Token.tailText_head_not_digit (t : Token) (hw : t.wellFormed = true) (rest : List Char) :
    ∀ c r', (t.tailText ++ rest) = c :: r' → isDigit c = false := by
  intro c r' h
  cases hcm : t.comma with
  | true =>
    simp only [Token.tailText, hcm, if_true, List.cons_append, List.nil_append,
      List.cons.injEq] at h
    rw [← h.1]
    decide
  | false =>
    rcases t.tag_cases hw with htg | ⟨c0, us, htg, hc, _, _⟩
    · simp only [Token.tailText, hcm, htg, Option.getD_none, List.nil_append,
        List.cons_append, List.cons.injEq, Bool.false_eq_true, if_false] at h
      rw [← h.1]
      decide
    · simp only [Token.tailText, hcm, htg, Option.getD_some, List.nil_append,
        List.cons_append, List.cons.injEq, Bool.false_eq_true, if_false] at h
      rw [← h.1]
      exact isXY_not_digit c0 hc

theorem matchPosAt_token (t : Token) (rest : List Char) (hw : t.wellFormed = true) :
    matchPosAt (t.text ++ rest) = some t.toMatch := by
  have hw' := hw
  unfold Token.wellFormed at hw'
  simp only [Bool.and_eq_true, Bool.not_eq_true', List.isEmpty_eq_false] at hw'
  obtain ⟨⟨⟨⟨hx0, hx⟩, hy0⟩, hy⟩, _⟩ := hw'
  have hcomma : ∀ c r', (',' :: (t.y ++ t.tailText ++ rest)) = c :: r' → isDigit c = false := by
    intro c r' h
    simp only [List.cons.injEq] at h
    rw [← h.1]
    decide
  obtain ⟨hx1, hx2⟩ := takeWhile_digits t.x (',' :: (t.y ++ t.tailText ++ rest)) hx hcomma
  obtain ⟨hy1, hy2⟩ := takeWhile_digits t.y (t.tailText ++ rest) hy
    (t.tailText_head_not_digit hw rest)
  have hxne : t.x.isEmpty = false := by
    cases hxx : t.x with
    | nil => exact absurd hxx hx0
    | cons _ _ => rfl
  have hyne : t.y.isEmpty = false := by
    cases hyy : t.y with
    | nil => exact absurd hyy hy0
    | cons _ _ => rfl
  have e1 : t.text ++ rest = '(' :: (t.x ++ ',' :: (t.y ++ t.tailText ++ rest)) := by
    simp [Token.text]
  have e2 : t.y ++ t.tailText ++ rest = t.y ++ (t.tailText ++ rest) := by simp
  rw [e1]
  simp only [matchPosAt, hx1, hx2, hxne]
  rw [e2]
  simp only [hy1, hy2, hyne, matchAfterY_token t rest hw]
  simp [Token.toMatch, Token.text]
  omega

/-! ## The scan on a line of well-formed tokens -/

theorem matchPosAt_none_of_ne_paren (c : Char) (r : List Char) (h : c ≠ '(') :
    matchPosAt (c :: r) = none := by
  unfold matchPosAt
  split
  · rename_i r1 heq
    simp only [List.cons.injEq] at heq
    exact absurd heq.1 h
  · rfl

theorem regexSearchPos_skip (junk s : List Char) (h : ∀ c ∈ junk, c ≠ '(') :
    regexSearchPos (junk ++ s) = regexSearchPos s := by
  induction junk with
  | nil => rfl
  | cons c cs ih =>
    have hc : c ≠ '(' := h c (List.mem_cons_self _ _)
    have hcs : ∀ d ∈ cs, d ≠ '(' := fun d hd => h d (List.mem_cons_of_mem _ hd)
    simp only [List.cons_append, regexSearchPos, matchPosAt_none_of_ne_paren c _ hc]
    exact ih hcs

theorem regexSearchPos_none (junk : List Char) (h : ∀ c ∈ junk, c ≠ '(') :
    regexSearchPos junk = none := by
  have := regexSearchPos_skip junk [] h
  simpa [regexSearchPos] using this

theorem regexSearchPos_token (t : Token) (rest : List Char) (hw : t.wellFormed = true) :
    regexSearchPos (t.text ++ rest) = some t.toMatch := by
  have h := matchPosAt_token t rest hw
  have e : t.text ++ rest = '(' :: (t.x ++ ',' :: (t.y ++ t.tailText) ++ rest) := by
    simp [Token.text]
  rw [e] at h
  rw [e]
  simp only [regexSearchPos, h]

theorem isDigit_ne_paren (c : Char) (h : isDigit c = true) : c ≠ '(' := by
  intro hc
  rw [hc] at h
  exact absurd h (by decide)

theorem isUpper_ne_paren (c : Char) (h : isUpper c = true) : c ≠ '(' := by
  intro hc
  rw [hc] at h
  exact absurd h (by decide)

theorem isXY_ne_paren (c : Char) (h : isXY c = true) : c ≠ '(' := by
  intro hc
  rw [hc] at h
  exact absurd h (by decide)

theorem Token.tail_no_paren (t : Token) (hw : t.wellFormed = true) :
    ∀ c ∈ t.text.tail, c ≠ '(' := by
  have hw' := hw
  unfold Token.wellFormed at hw'
  simp only [Bool.and_eq_true, List.all_eq_true] at hw'
  obtain ⟨⟨⟨⟨_, hx⟩, _⟩, hy⟩, _⟩ := hw'
  intro c hc
  simp only [Token.text, List.tail_cons, List.mem_append, List.mem_cons, Token.tailText] at hc
  rcases hc with hc | hc | hc | hc | hc
  · exact isDigit_ne_paren c (hx c hc)
  · rw [hc]; decide
  · exact isDigit_ne_paren c (hy c hc)
  · split at hc
    · simp only [List.mem_singleton] at hc
      rw [hc]; decide
    · simp at hc
  · rcases hc with hc | hc
    · rcases t.tag_cases hw with htg | ⟨c0, us, htg, hc0, _, hup⟩
      · rw [htg] at hc
        simp at hc
      · rw [htg] at hc
        simp only [Option.getD_some, List.mem_cons] at hc
        rcases hc with hc | hc | hc
        · rw [hc]; exact isXY_ne_paren c0 hc0
        · rw [hc]; decide
        · exact isUpper_ne_paren c (List.all_eq_true.mp hup c hc)
    · simp only [List.mem_cons, List.mem_singleton, List.not_mem_nil, or_false] at hc
      rcases hc with hc | hc <;> rw [hc] <;> decide

theorem Token.text_length_pos (t : Token) : 1 ≤ t.text.length := by
  simp [Token.text]

theorem scanPoses_step {O : Type} (api : OrientationApi O) (G : Graph) (n : Nat)
    (rest : List Char) (c : Config O) (hne : rest ≠ []) :
    scanPoses api G (n + 1) rest c =
      match regexSearchPos (rest.take 128) with
      | some m =>
        match poseOfMatch api G m with
        | .error e => .error e
        | .ok p => scanPoses api G n (rest.drop m.len) (c ++ [p])
      | none => .ok c := by
  cases rest with
  | nil => exact absurd rfl hne
  | cons a as => rfl

/-- The scan of `junk ++ tokens`, where `junk` (the part of the line between
the cursor and the next token) holds no `(`, is shorter than every token, and
together with any one token fits the window of 128 characters: every token is
matched once, in order. -/
theorem scanPoses_tokens {O : Type} (api : OrientationApi O) (G : Graph) :
    ∀ (toks : List Token) (ps : List (Pose O)) (junk : List Char) (c : Config O) (fuel : Nat),
      (∀ ch ∈ junk, ch ≠ '(') →
      (∀ t ∈ toks, t.wellFormed = true ∧ junk.length < t.text.length ∧
        junk.length + t.text.length ≤ 128) →
      List.Forall₂ (fun t p => poseOfMatch api G t.toMatch = .ok p) toks ps →
      (junk ++ concatTexts toks).length ≤ fuel →
      scanPoses api G fuel (junk ++ concatTexts toks) c = .ok (c ++ ps) := by
  intro toks
  induction toks with
  | nil =>
    intro ps junk c fuel hj _ hps hfuel
    cases hps
    simp only [concatTexts, List.append_nil] at hfuel ⊢
    cases junk with
    | nil => cases fuel <;> simp [scanPoses]
    | cons a as =>
      cases fuel with
      | zero => simp at hfuel
      | succ n =>
        rw [scanPoses_step api G n _ c (by simp)]
        have hno : ∀ ch ∈ (a :: as).take 128, ch ≠ '(' :=
          fun ch hch => hj ch (List.mem_of_mem_take hch)
        rw [regexSearchPos_none _ hno]
  | cons t ts ih =>
    intro ps junk c fuel hj htoks hps hfuel
    cases hps with
    | cons hp hrest =>
      rename_i p ps'
      obtain ⟨hw, hlt, hwin⟩ := htoks t (List.mem_cons_self _ _)
      have htpos := t.text_length_pos
      have hne : junk ++ concatTexts (t :: ts) ≠ [] := by
        intro h
        have := congrArg List.length h
        simp only [concatTexts, List.length_append, List.length_nil] at this
        omega
      cases fuel with
      | zero =>
        simp only [concatTexts, List.length_append] at hfuel
        omega
      | succ n =>
        rw [scanPoses_step api G n _ c hne]
        have htake : (junk ++ concatTexts (t :: ts)).take 128 =
            junk ++ (t.text ++ (concatTexts ts).take (128 - junk.length - t.text.length)) := by
          simp only [concatTexts]
          rw [List.take_append_eq_append_take, List.take_of_length_le (by omega),
            List.take_append_eq_append_take, List.take_of_length_le (by omega)]
        rw [htake, regexSearchPos_skip _ _ hj, regexSearchPos_token t _ hw]
        simp only [hp]
        have hdrop : (junk ++ concatTexts (t :: ts)).drop t.toMatch.len =
            (t.text.drop (t.text.length - junk.length)) ++ concatTexts ts := by
          simp only [concatTexts, Token.toMatch]
          rw [← List.append_assoc, List.drop_append_of_le_length (by simp),
            List.drop_append_eq_append_drop, List.drop_of_length_le (by omega)]
          simp
        rw [hdrop]
        have hjunk' : ∀ ch ∈ t.text.drop (t.text.length - junk.length), ch ≠ '(' := by
          intro ch hch
          apply t.tail_no_paren hw
          have e : t.text.length - junk.length = 1 + (t.text.length - junk.length - 1) := by omega
          rw [e, ← List.drop_drop] at hch
          rw [← List.drop_one]
          exact List.mem_of_mem_drop hch
        have hlen' : (t.text.drop (t.text.length - junk.length)).length = junk.length := by
          simp only [List.length_drop]
          omega
        apply (ih ps' _ (c ++ [p]) n hjunk' ?_ hrest ?_).trans
        · simp
        · intro t' ht'
          rw [hlen']
          exact htoks t' (List.mem_cons_of_mem _ ht')
        · simp only [concatTexts, List.length_append, hlen'] at hfuel ⊢
          omega

/-! ## Lines of the form prefix, then tokens -/

theorem poseOfMatch_token {O : Type} (api : OrientationApi O) (G : Graph) (t : Token)
    (hr : t.resolves G = true) : poseOfMatch api G t.toMatch = .ok (t.pose api G) := by
  unfold Token.resolves at hr
  simp only [Bool.and_eq_true, decide_eq_true_eq] at hr
  obtain ⟨⟨⟨hx, hy⟩, hi⟩, hb⟩ := hr
  have hget : G.U.get? (t.index G) = some (G.U.get ⟨t.index G, hb⟩) := List.get?_eq_get hb
  have hi' : G.width * decVal t.y + decVal t.x ≤ INT_MAX := hi
  have hget' : G.U.get? (G.width * decVal t.y + decVal t.x) = some (G.U.get ⟨t.index G, hb⟩) :=
    hget
  simp only [poseOfMatch, Token.toMatch, stoi, hx, hy, if_true, lookupNode, hi', hget',
    Token.pose, Token.node, hget, Token.orientation]

theorem forall₂_pose {O : Type} (api : OrientationApi O) (G : Graph) :
    ∀ toks : List Token, (∀ t ∈ toks, t.resolves G = true) →
      List.Forall₂ (fun t p => poseOfMatch api G t.toMatch = .ok p) toks
        (toks.map (Token.pose api G)) := by
  intro toks
  induction toks with
  | nil => intro _; exact List.Forall₂.nil
  | cons t ts ih =>
    intro h
    exact List.Forall₂.cons (poseOfMatch_token api G t (h t (List.mem_cons_self _ _)))
      (ih fun t' ht' => h t' (List.mem_cons_of_mem _ ht'))

theorem scanLine_planLine {O : Type} (api : OrientationApi O) (G : Graph) (L : PlanLine)
    (h : L.scannable G) : scanLine api G L.text = .ok (L.config api G) := by
  obtain ⟨hpre, htoks⟩ := h
  have := scanPoses_tokens api G L.toks (L.toks.map (Token.pose api G)) L.pre [] L.text.length
    hpre (fun t ht => ⟨(htoks t ht).1, (htoks t ht).2.1, (htoks t ht).2.2.1⟩)
    (forall₂_pose api G L.toks fun t ht => (htoks t ht).2.2.2) (Nat.le_refl _)
  simpa [scanLine, PlanLine.text, PlanLine.config] using this

theorem Token.text_eq_snoc (t : Token) : ∃ a, t.text = a ++ [','] := by
  refine ⟨'(' :: (t.x ++ ',' :: (t.y ++ ((if t.comma then [','] else []) ++
    ((t.tag.getD []) ++ [')'])))), ?_⟩
  simp [Token.text, Token.tailText]

theorem concatTexts_eq_snoc : ∀ toks : List Token, toks ≠ [] →
    ∃ a, concatTexts toks = a ++ [','] := by
  intro toks
  induction toks with
  | nil => intro h; exact absurd rfl h
  | cons t ts ih =>
    intro _
    cases ts with
    | nil =>
      obtain ⟨a, ha⟩ := t.text_eq_snoc
      exact ⟨a, by simp [concatTexts, ha]⟩
    | cons t' ts' =>
      obtain ⟨a, ha⟩ := ih (by simp)
      exact ⟨t.text ++ a, by rw [concatTexts, ha, List.append_assoc]⟩

theorem concatTexts_eq_cons : ∀ toks : List Token, toks ≠ [] →
    ∃ r, concatTexts toks = '(' :: r := by
  intro toks h
  cases toks with
  | nil => exact absurd rfl h
  | cons t ts => exact ⟨(t.x ++ ',' :: (t.y ++ t.tailText)) ++ concatTexts ts, rfl⟩

theorem rstrip_snoc (c : Char) (hc : isSpace c = false) :
    ∀ a : List Char, rstrip (a ++ [c]) = a ++ [c] := by
  intro a
  induction a with
  | nil => simp [rstrip, hc]
  | cons x xs ih =>
    have hall : ((x :: xs) ++ [c]).all isSpace = false := by
      simp [List.all_append, hc]
    simp only [List.cons_append] at hall ⊢
    simp only [rstrip, hall, ih]
    simp

theorem containsSub_of_isPrefixOf (pat l : List Char) (h : pat.isPrefixOf l = true) :
    containsSub pat l = true := by
  cases l with
  | nil => simpa [containsSub] using h
  | cons c cs => simp [containsSub, h]

theorem containsSub_append (pat b : List Char) :
    ∀ a : List Char, containsSub pat (a ++ (pat ++ b)) = true := by
  intro a
  induction a with
  | nil =>
    apply containsSub_of_isPrefixOf
    rw [List.nil_append, List.isPrefixOf_iff_prefix]
    exact List.prefix_append _ _
  | cons x xs ih =>
    show (pat.isPrefixOf (x :: (xs ++ (pat ++ b))) || containsSub pat (xs ++ (pat ++ b))) = true
    rw [ih, Bool.or_true]

theorem parseLine_planLine {O : Type} (api : OrientationApi O) (G : Graph) (st : ParseState O)
    (L : PlanLine) (hsec : st.in_reference_section = false) (h : L.good G) :
    parseLine api G st L.text =
      .ok { st with solution := st.solution ++ [L.config api G] } := by
  obtain ⟨⟨p, hp⟩, hne, hmark, hscan⟩ := h
  obtain ⟨a, ha⟩ := concatTexts_eq_snoc L.toks hne
  obtain ⟨r, hr⟩ := concatTexts_eq_cons L.toks hne
  have hstrip : rstrip L.text = L.text := by
    have e : L.text = (L.pre ++ a) ++ [','] := by simp [PlanLine.text, ha]
    rw [e]
    exact rstrip_snoc ',' (by decide) _
  have hplan : containsSub planText L.text = true := by
    have e : L.text = p ++ (planText ++ r) := by
      simp [PlanLine.text, hp, hr, planText]
    rw [e]
    exact containsSub_append _ _ _
  have hmark' : containsSub markerText L.text = false := hmark
  rw [parseLine_primary api G st _ hsec, hstrip, scanLine_planLine api G L hscan]
  simp [hmark', hplan]

theorem parseFrom_planLines {O : Type} (api : OrientationApi O) (G : Graph) :
    ∀ (Ls : List PlanLine) (st : ParseState O), st.in_reference_section = false →
      (∀ L ∈ Ls, L.good G) →
      parseFrom api G st (Ls.map PlanLine.text) =
        .ok { st with solution := st.solution ++ Ls.map (PlanLine.config api G) } := by
  intro Ls
  induction Ls with
  | nil => intro st _ _; simp [parseFrom]
  | cons L Ls ih =>
    intro st hsec h
    simp only [List.map_cons, parseFrom]
    rw [parseLine_planLine api G st L hsec (h L (List.mem_cons_self _ _))]
    simp only
    have := ih { st with solution := st.solution ++ [L.config api G] } hsec
      fun L' hL' => h L' (List.mem_cons_of_mem _ hL')
    rw [this]
    simp

theorem linesA_good : ∀ L ∈ linesA, L.good grid3 := by
  intro L hL
  simp only [linesA, List.mem_cons, List.mem_singleton, List.not_mem_nil, or_false] at hL
  rcases hL with h | h <;> subst h
  · exact ⟨⟨"0".toList, rfl⟩, by decide, by decide, by decide, by decide⟩
  · exact ⟨⟨"1".toList, rfl⟩, by decide, by decide, by decide, by decide⟩

theorem longLine_good : longLine.good grid3 := by
  refine ⟨⟨"0".toList, rfl⟩, by decide, by decide, by decide, ?_⟩
  intro t ht
  have := List.eq_of_mem_replicate ht
  subst this
  decide

theorem lineB_good : lineB.good grid3blocked :=
  ⟨⟨"0".toList, rfl⟩, by decide, by decide, by decide, by decide⟩

/-! ## Playback: rounding to `float` -/

theorem roundHalfEven_nonneg (q : ℚ) (h : 0 ≤ q) : 0 ≤ roundHalfEven q := by
  have hf : 0 ≤ ⌊q⌋ := Int.floor_nonneg.mpr h
  unfold roundHalfEven
  split_ifs <;> omega

theorem roundHalfEven_intCast (k : Int) : roundHalfEven (k : ℚ) = k := by
  simp [roundHalfEven]

theorem ulpF32_pos (x : ℚ) : 0 < ulpF32 x := by
  unfold ulpF32
  positivity

theorem roundFinite_nonneg (x : ℚ) (h : 0 ≤ x) : 0 ≤ roundFinite x := by
  have hu := ulpF32_pos x
  have hq : 0 ≤ |x| / ulpF32 x := div_nonneg (abs_nonneg x) hu.le
  have hm : (0 : ℚ) ≤ ((roundHalfEven (|x| / ulpF32 x) : Int) : ℚ) := by
    exact_mod_cast roundHalfEven_nonneg _ hq
  unfold roundFinite
  rw [if_neg (not_lt.mpr h), one_mul]
  exact mul_nonneg hm hu.le

/-- A non-negative multiple of the spacing around it is a `float` value. -/
theorem roundFinite_of_grid (x : ℚ) (k : Int) (h0 : 0 ≤ x) (hk : x / ulpF32 x = (k : ℚ)) :
    roundFinite x = x := by
  have hu := ulpF32_pos x
  unfold roundFinite
  rw [if_neg (not_lt.mpr h0), one_mul, abs_of_nonneg h0, hk, roundHalfEven_intCast, ← hk]
  field_simp

theorem log_of_bounds (x : ℚ) (e : Int) (h1 : (2 : ℚ) ^ e ≤ x) (h2 : x < (2 : ℚ) ^ (e + 1)) :
    Int.log 2 x = e := by
  have hx : 0 < x := lt_of_lt_of_le (by positivity) h1
  have a := (Int.zpow_le_iff_le_log (b := 2) (by norm_num) hx (x := e)).mp (by exact_mod_cast h1)
  have b := (Int.lt_zpow_iff_log_lt (b := 2) (by norm_num) hx (x := e + 1)).mp
    (by exact_mod_cast h2)
  omega

/-- Every `int` from `0` to `2 ^ 24` is a `float` value. -/
theorem float_of_int_exact (T : Int) (h0 : 0 ≤ T) (h1 : T ≤ 16777216) :
    float_of_int T = (T : ℚ) := by
  unfold float_of_int
  rcases Nat.eq_zero_or_pos T.toNat with hz | hpos
  · have hT : T = 0 := by omega
    subst hT
    exact roundFinite_of_grid _ 0 (by simp) (by simp)
  · obtain ⟨n, rfl⟩ := Int.eq_ofNat_of_zero_le h0
    have hn1 : 1 ≤ n := by simpa using hpos
    have hn2 : n ≤ 16777216 := by exact_mod_cast h1
    have hlog : Int.log 2 |((n : Int) : ℚ)| = (Nat.log 2 n : Int) := by
      rw [abs_of_nonneg (by positivity), Int.cast_natCast]
      exact Int.log_natCast 2 n
    have hle : Nat.log 2 n ≤ 24 := by
      have : Nat.log 2 n < 25 := Nat.log_lt_of_lt_pow (by omega) (by omega)
      omega
    have hpow : 2 ^ Nat.log 2 n ≤ n := Nat.pow_log_le_self 2 (by omega)
    have hulp : ulpF32 ((n : Int) : ℚ) = (2 : ℚ) ^ ((Nat.log 2 n : Int) - 23) := by
      unfold ulpF32
      rw [hlog, max_eq_left (by omega)]
    rcases Nat.lt_or_ge (Nat.log 2 n) 24 with hlt | hge
    · apply roundFinite_of_grid _ ((n : Int) * 2 ^ (23 - Nat.log 2 n)) (by positivity)
      rw [hulp]
      have e : ((Nat.log 2 n : Int) - 23) = -((23 - Nat.log 2 n : ℕ) : Int) := by omega
      rw [e, zpow_neg, zpow_natCast]
      push_cast
      field_simp
    · have he : Nat.log 2 n = 24 := by omega
      rw [he] at hpow
      have hn : n = 16777216 := by omega
      subst hn
      apply roundFinite_of_grid _ 8388608 (by positivity)
      rw [hulp, he]
      norm_num

theorem zoomCamera_fields (s : Playback) :
    (zoomCamera s).timestep_slider = s.timestep_slider ∧
    (zoomCamera s).speed_slider = s.speed_slider ∧
    (zoomCamera s).flg_autoplay = s.flg_autoplay ∧
    (zoomCamera s).flg_loop = s.flg_loop := by
  unfold zoomCamera
  simp only
  split_ifs <;> exact ⟨rfl, rfl, rfl, rfl⟩

/-- A tick while playing, without zoom, when the rounded sum is finite and at
most `T`: the rounded sum is stored. -/
theorem update_of_finite_sum (T : Int) (s : Playback) (r : ℚ)
    (ha : s.flg_autoplay = true)
    (hr : roundFinite (s.timestep_slider + s.speed_slider) = r)
    (h1 : ¬ FLT_MAX < r) (h2 : ¬ r < -FLT_MAX) (hle : r ≤ float_of_int T)
    (hz1 : s.flg_zoomout = false) (hz2 : s.flg_zoomin = false) :
    update T s = some { s with timestep_slider := r } := by
  have hfa : float_add s.timestep_slider s.speed_slider = .finite r := by
    unfold float_add
    rw [hr, if_neg h1, if_neg h2]
  have hadv : advanceTime T s = some { s with timestep_slider := r } := by
    unfold advanceTime
    rw [hfa]
    exact if_pos hle
  have hzoom : zoomCamera { s with timestep_slider := r } = { s with timestep_slider := r } := by
    unfold zoomCamera
    simp only [hz1, hz2, Bool.false_eq_true, if_false]
  unfold update
  rw [hadv, if_neg (by rw [ha]; decide)]
  exact congrArg some hzoom

/-! ## The claims -/

/-- C1 (as amended): for an input without a `local_guidance=` line whose lines
each consist of a prefix ending in `:` (without `(`, shorter than each token
of the line, and fitting the 128-character window together with any one of
them) followed by `n` well-formed coordinate tokens that resolve to existing
nodes, the parser produces the Solution with one Config per line and `n` poses
per Config, in line and token order. -/
theorem primary_plan_parse {O : Type} (api : OrientationApi O) (G : Graph)
    (Ls : List PlanLine) (n : Nat)
    (hgood : ∀ L ∈ Ls, L.good G ∧ L.toks.length = n ∧ ∀ t ∈ L.toks, t.node G ≠ none) :
    parseLines api G (Ls.map PlanLine.text) =
      .ok ⟨Ls.map (PlanLine.config api G), ⟨none, []⟩, false, -1, -1⟩ ∧
    (Ls.map (PlanLine.config api G)).length = Ls.length ∧
    (∀ c ∈ Ls.map (PlanLine.config api G), c.length = n) ∧
    (∀ c ∈ Ls.map (PlanLine.config api G), ∀ p ∈ c, p.v ≠ none) := by
  refine ⟨?_, by simp, ?_, ?_⟩
  · have := parseFrom_planLines api G Ls (ParseState.init O) rfl fun L hL => (hgood L hL).1
    simpa [parseLines, ParseState.init] using this
  · intro c hc
    obtain ⟨L, hL, rfl⟩ := List.mem_map.mp hc
    simp [PlanLine.config, (hgood L hL).2.1]
  · intro c hc p hp
    obtain ⟨L, hL, rfl⟩ := List.mem_map.mp hc
    obtain ⟨t, ht, rfl⟩ := List.mem_map.mp hp
    exact (hgood L hL).2.2 t ht

/-- Scenario A with line prefixes: the lines `0:(0,0),(1,0),` and
`1:(1,0),(2,0),` yield `T = 1`, `N = 2`, agent 0 at `(0,0)` at timestep 0 and
at `(1,0)` at timestep 1. -/
theorem primary_plan_parse_witness :
    parseLines (dirApi 0) grid3 ["0:(0,0),(1,0),".toList, "1:(1,0),(2,0),".toList] =
      .ok ⟨planA, ⟨none, []⟩, false, -1, -1⟩ ∧
    ofApp_T planA = 1 ∧ ofApp_N planA = some 2 ∧
    nodeAt planA 0 0 = some ⟨0, 0⟩ ∧ nodeAt planA 1 0 = some ⟨1, 0⟩ :=
  ⟨(primary_plan_parse (dirApi 0) grid3 linesA 2
      (fun L hL => ⟨linesA_good L hL, by
        simp only [linesA, List.mem_cons, List.mem_singleton, List.not_mem_nil, or_false] at hL
        rcases hL with h | h <;> subst h <;> decide⟩)).1,
   by decide, by decide, by decide, by decide⟩

/-- C1, the claim as stated fails: the two lines `(0,0),(1,0),` and
`(1,0),(2,0),` hold no `:(`, so neither is read as a plan line and the
Solution has no Config. -/
theorem bare_token_lines_counterexample :
    parseLines (dirApi 0) grid3 ["(0,0),(1,0),".toList, "(1,0),(2,0),".toList] =
      .ok ⟨[], ⟨none, []⟩, false, -1, -1⟩ := by
  rfl

/-- C2 (as amended): a line read outside reference mode that is not a marker
line and consists of a prefix ending in `:` followed by `n ≥ 1` well-formed,
resolving coordinate tokens, where the prefix holds no `(`, is shorter than
every token and fits the 128-character window together with any one token,
appends exactly one Config with exactly `n` poses, the `k`-th being the node
at `(x, y)` and the orientation of the `k`-th token. The length of the line is
not bounded. -/
theorem plan_line_appends_config {O : Type} (api : OrientationApi O) (G : Graph)
    (st : ParseState O) (L : PlanLine)
    (hsec : st.in_reference_section = false) (h : L.good G) :
    parseLine api G st L.text = .ok { st with solution := st.solution ++ [L.config api G] } ∧
    (L.config api G).length = L.toks.length ∧
    ∀ (k : Nat) (hk : k < L.toks.length),
      (L.config api G).get? k =
        some ⟨(L.toks.get ⟨k, hk⟩).node G, (L.toks.get ⟨k, hk⟩).orientation api⟩ := by
  refine ⟨parseLine_planLine api G st L hsec h, by simp [PlanLine.config], ?_⟩
  intro k hk
  simp [PlanLine.config, Token.pose, List.getElem?_eq_getElem hk]

/-- A line of 182 characters: all thirty tokens are read. -/
theorem plan_line_appends_config_witness :
    parseLine (dirApi 0) grid3 (ParseState.init Dir) longLine.text =
      .ok { ParseState.init Dir with
            solution := (ParseState.init Dir).solution ++ [longLine.config (dirApi 0) grid3] } ∧
    (longLine.config (dirApi 0) grid3).length = 30 ∧ longLine.text.length = 182 :=
  ⟨(plan_line_appends_config (dirApi 0) grid3 (ParseState.init Dir) longLine rfl longLine_good).1,
   by rfl, by rfl⟩

/-- C2, the claim as stated fails. A prefix of 128 characters hides the only
token from the window: the Config has no pose. A prefix longer than the first
token (`timestep10:`) lets the cursor stop before that token: it is read
twice. -/
theorem long_prefix_counterexample :
    parseLine (dirApi 0) grid3 (ParseState.init Dir)
        (List.replicate 127 'a' ++ ":(0,0),".toList) =
      .ok ⟨[[]], ⟨none, []⟩, false, -1, -1⟩ ∧
    parseLine (dirApi 0) grid3 (ParseState.init Dir) "timestep10:(0,0),(1,0),".toList =
      .ok ⟨[[⟨some ⟨0, 0⟩, Dir.NONE⟩, ⟨some ⟨0, 0⟩, Dir.NONE⟩, ⟨some ⟨1, 0⟩, Dir.NONE⟩]],
           ⟨none, []⟩, false, -1, -1⟩ := by
  constructor <;> rfl

/-- C3, the code at the failing input: for `local_guidance=`, `history_size=3`,
`step0:`, `agent0:(0,0),(1,0),` the history size is 3 and agent 0 has one
forecast entry, which holds three poses: `(0,0)`, `(0,0)`, `(1,0)`. -/
theorem reference_entry_repeats_first_token :
    parseLines (dirApi 0) grid3
        ["local_guidance=".toList, "history_size=3".toList, "step0:".toList,
         "agent0:(0,0),(1,0),".toList] =
      .ok ⟨[], ⟨some 3,
            [[[⟨some ⟨0, 0⟩, Dir.NONE⟩, ⟨some ⟨0, 0⟩, Dir.NONE⟩, ⟨some ⟨1, 0⟩, Dir.NONE⟩]]]⟩,
           true, 0, 0⟩ := by
  rfl

/-- C4: for every input the line loop stops, and when it yields a Solution its
number of Configs is the number of lines that contain `:(` and come before the
first line containing `local_guidance=`. Such a line counts whatever the
number of coordinate tokens extracted from it, and no line at or after the
marker counts. -/
theorem solution_length_counts_plan_lines {O : Type} (api : OrientationApi O) (G : Graph)
    (lines : List (List Char)) :
    parseLines api G lines ≠ .error .fuel ∧
    ∀ st : ParseState O, parseLines api G lines = .ok st →
      st.solution.length =
        ((lines.takeWhile fun l => !containsSub "local_guidance=".toList l).filter
          (containsSub ":(".toList)).length := by
  refine ⟨parseFrom_ne_fuel api G lines _, ?_⟩
  intro st h
  have := parseFrom_solution_length api G lines (ParseState.init O) st h
  simpa [ParseState.init, countPlanLines, markerText, planText] using this

/-- A plan line without a matchable token, the marker, then a line that would be
a plan line: the Solution is the single empty Config. -/
theorem solution_length_counts_plan_lines_witness :
    parseLines (dirApi 0) grid3 ["0:(x".toList, "local_guidance=".toList, "1:(0,0),".toList] =
      .ok ⟨[[]], ⟨none, []⟩, true, -1, -1⟩ ∧
    ([[]] : Solution Dir).length =
      ((["0:(x".toList, "local_guidance=".toList, "1:(0,0),".toList].takeWhile
          fun l => !containsSub "local_guidance=".toList l).filter
        (containsSub ":(".toList)).length :=
  ⟨by rfl,
   (solution_length_counts_plan_lines (dirApi 0) grid3
      ["0:(x".toList, "local_guidance=".toList, "1:(0,0),".toList]).2
      ⟨[[]], ⟨none, []⟩, true, -1, -1⟩ (by rfl)⟩

/-- C5 (as amended): on lines within reach of the scan whose tokens index
inside the node table, the scan and the parse do not fail, whether or not a
cell is blocked: the Solution is produced, and a token on a blocked cell gives
a pose whose node reference is absent. -/
theorem blocked_cell_gives_null_pose {O : Type} (api : OrientationApi O) (G : Graph)
    (Ls : List PlanLine) (h : ∀ L ∈ Ls, L.good G) :
    (∀ L ∈ Ls, scanLine api G L.text = .ok (L.config api G)) ∧
    parseLines api G (Ls.map PlanLine.text) =
      .ok ⟨Ls.map (PlanLine.config api G), ⟨none, []⟩, false, -1, -1⟩ ∧
    ∀ L ∈ Ls, ∀ t ∈ L.toks, G.U.get? (t.index G) = some none →
      ∃ c ∈ Ls.map (PlanLine.config api G), ∃ p ∈ c, p = t.pose api G ∧ p.v = none := by
  refine ⟨fun L hL => scanLine_planLine api G L (h L hL).2.2.2, ?_, ?_⟩
  · have := parseFrom_planLines api G Ls (ParseState.init O) rfl h
    simpa [parseLines, ParseState.init] using this
  · intro L hL t ht hb
    refine ⟨L.config api G, List.mem_map_of_mem _ hL, t.pose api G,
      List.mem_map_of_mem _ ht, rfl, ?_⟩
    rw [List.get?_eq_getElem?] at hb
    simp [Token.pose, Token.node, hb]

/-- The line `0:(1,0),` on the grid whose cell `(1,0)` is blocked. -/
theorem blocked_cell_gives_null_pose_witness :
    parseLines (dirApi 0) grid3blocked ["0:(1,0),".toList] =
      .ok ⟨[[⟨none, Dir.NONE⟩]], ⟨none, []⟩, false, -1, -1⟩ :=
  (blocked_cell_gives_null_pose (dirApi 0) grid3blocked [lineB]
    (fun L hL => by
      simp only [List.mem_singleton] at hL
      subst hL
      exact lineB_good)).2.1

/-- C5, the claim as stated fails: the token `(1,0),` names a blocked cell, yet
the parse succeeds and the Solution holds a pose without a node. -/
theorem blocked_cell_counterexample :
    ∃ st : ParseState Dir,
      parseLines (dirApi 0) grid3blocked ["0:(1,0),".toList] = .ok st ∧
      ∃ c ∈ st.solution, ∃ p ∈ c, p.v = none :=
  ⟨⟨[[⟨none, Dir.NONE⟩]], ⟨none, []⟩, false, -1, -1⟩, rfl, [⟨none, Dir.NONE⟩], by simp,
    ⟨none, Dir.NONE⟩, by simp, rfl⟩

/-- C6 (as amended): when the line loop yields a Solution without Configs,
loading is not rejected: `main` calls the `ofApp` constructor with the empty
Solution, whose initialiser for `T` gives `-1` while those for `N` and `goals`
read the first and last Config of an empty vector. -/
theorem empty_solution_reaches_constructor {O : Type} (api : OrientationApi O) (G : Graph)
    (lines : List (List Char)) (st : ParseState O)
    (hparse : parseLines api G lines = .ok st) (hempty : st.solution.length = 0) :
    main_handoff api G lines = .ok (([] : Solution O), st.reference_path) ∧
    ofApp_T ([] : Solution O) = -1 ∧ ofApp_N ([] : Solution O) = none ∧
    ofApp_goals ([] : Solution O) = none := by
  have he : st.solution = [] := List.length_eq_zero.mp hempty
  refine ⟨?_, by simp [ofApp_T, toInt32], rfl, rfl⟩
  simp [main_handoff, hparse, he]

/-- An empty file. -/
theorem empty_solution_reaches_constructor_witness :
    main_handoff (dirApi 0) grid3 [] = .ok (([] : Solution Dir), ⟨none, []⟩) ∧
    ofApp_T ([] : Solution Dir) = -1 ∧ ofApp_N ([] : Solution Dir) = none ∧
    ofApp_goals ([] : Solution Dir) = none :=
  empty_solution_reaches_constructor (dirApi 0) grid3 [] ⟨[], ⟨none, []⟩, false, -1, -1⟩ rfl rfl

/-- C6, the claim as stated fails: for a file without any line containing
`:(` the hand-off is not an error; the constructor receives the empty
Solution. -/
theorem empty_solution_counterexample :
    main_handoff (dirApi 0) grid3 ["no plan here".toList] =
      .ok (([] : Solution Dir), ⟨none, []⟩) ∧
    ofApp_T ([] : Solution Dir) = -1 := by
  constructor
  · rfl
  · decide

/-- C7: for a Solution with `T ≥ 0` whose Configs all have length `N` (and whose
poses all hold a node), an agent `i < N` and a time `t` in `[0, T]`, with
`t1 = ⌊t⌋` and `frac = t - t1` over the rationals: the interpolated grid
position is `P[t1][i] + (P[t1+1][i] - P[t1][i]) * frac` when `t1 + 1 ≤ T`, it is
`P[t1][i]` when `t1 + 1 > T`, and at an integer time it is `P[t1][i]`. -/
theorem interpolated_position {O : Type} [DecidableEq O] (api : OrientationApi O)
    (P : Solution O) (N i : Nat) (t : ℚ)
    (hT : 0 ≤ ofApp_T P) (hN : ∀ c ∈ P, c.length = N)
    (hv : ∀ c ∈ P, ∀ p ∈ c, p.v ≠ none) (hi : i < N)
    (h0 : 0 ≤ t) (h1 : t ≤ (ofApp_T P : ℚ)) :
    ∃ n1 : Node, nodeAt P ⌊t⌋ i = some n1 ∧
      (⌊t⌋ + 1 ≤ ofApp_T P →
        ∃ n2 : Node, nodeAt P (⌊t⌋ + 1) i = some n2 ∧
          (drawAgent api P (ofApp_T P) t i).map AgentDraw.pos =
            some ((n1.x : ℚ) + ((n2.x : ℚ) - n1.x) * (t - (⌊t⌋ : ℚ)),
                  (n1.y : ℚ) + ((n2.y : ℚ) - n1.y) * (t - (⌊t⌋ : ℚ)))) ∧
      (ofApp_T P < ⌊t⌋ + 1 →
        (drawAgent api P (ofApp_T P) t i).map AgentDraw.pos = some ((n1.x : ℚ), (n1.y : ℚ))) ∧
      (t = (⌊t⌋ : ℚ) →
        (drawAgent api P (ofApp_T P) t i).map AgentDraw.pos = some ((n1.x : ℚ), (n1.y : ℚ))) := by
  have hlen := ofApp_T_succ_le_length P hT
  have hf0 : 0 ≤ ⌊t⌋ := Int.floor_nonneg.mpr h0
  have hfT : ⌊t⌋ ≤ ofApp_T P := by
    have : ⌊t⌋ ≤ ⌊(ofApp_T P : ℚ)⌋ := Int.floor_le_floor h1
    simpa using this
  obtain ⟨p1, n1, hp1, hn1⟩ := poseAt_of_shape P N i ⌊t⌋ hN hv hi hf0 (by omega)
  have hcast := cast_int_eq_floor t h0
  have hblend : ⌊t⌋ + 1 ≤ ofApp_T P →
      ∃ n2 : Node, nodeAt P (⌊t⌋ + 1) i = some n2 ∧
        (drawAgent api P (ofApp_T P) t i).map AgentDraw.pos =
          some ((n1.x : ℚ) + ((n2.x : ℚ) - n1.x) * (t - (⌊t⌋ : ℚ)),
                (n1.y : ℚ) + ((n2.y : ℚ) - n1.y) * (t - (⌊t⌋ : ℚ))) := by
    intro h2
    obtain ⟨p2, n2, hp2, hn2⟩ := poseAt_of_shape P N i (⌊t⌋ + 1) hN hv hi (by omega) (by omega)
    refine ⟨n2, by simp [nodeAt, hp2, hn2], ?_⟩
    simp [drawAgent, hcast, hp1, hn1, hp2, hn2, h2, AgentDraw.pos]
  refine ⟨n1, by simp [nodeAt, hp1, hn1], hblend, ?_, ?_⟩
  · intro h2
    have h3 : ¬ (⌊t⌋ + 1 ≤ ofApp_T P) := by omega
    simp [drawAgent, hcast, hp1, hn1, h3, AgentDraw.pos]
  · intro hint
    by_cases h2 : ⌊t⌋ + 1 ≤ ofApp_T P
    · obtain ⟨n2, _, hd⟩ := hblend h2
      rw [hd]
      have hz : t - (⌊t⌋ : ℚ) = 0 := by linarith
      simp [hz]
    · simp [drawAgent, hcast, hp1, hn1, h2, AgentDraw.pos]

/-- Scenario A: in the plan `[(0,0),(1,0)], [(1,0),(2,0)]` at time `0.5`,
agent 0 is drawn at `x = 0.5`. -/
theorem interpolated_position_witness :
    (0 : Int) ≤ ofApp_T planA ∧ ((1 / 2 : ℚ) ≤ (ofApp_T planA : ℚ)) ∧
    (∃ n1 : Node, nodeAt planA ⌊(1 / 2 : ℚ)⌋ 0 = some n1 ∧
      (⌊(1 / 2 : ℚ)⌋ + 1 ≤ ofApp_T planA →
        ∃ n2 : Node, nodeAt planA (⌊(1 / 2 : ℚ)⌋ + 1) 0 = some n2 ∧
          (drawAgent (dirApi 0) planA (ofApp_T planA) (1 / 2) 0).map AgentDraw.pos =
            some ((n1.x : ℚ) + ((n2.x : ℚ) - n1.x) * ((1 / 2 : ℚ) - (⌊(1 / 2 : ℚ)⌋ : ℚ)),
                  (n1.y : ℚ) + ((n2.y : ℚ) - n1.y) * ((1 / 2 : ℚ) - (⌊(1 / 2 : ℚ)⌋ : ℚ)))) ∧
      (ofApp_T planA < ⌊(1 / 2 : ℚ)⌋ + 1 →
        (drawAgent (dirApi 0) planA (ofApp_T planA) (1 / 2) 0).map AgentDraw.pos =
          some ((n1.x : ℚ), (n1.y : ℚ))) ∧
      ((1 / 2 : ℚ) = (⌊(1 / 2 : ℚ)⌋ : ℚ) →
        (drawAgent (dirApi 0) planA (ofApp_T planA) (1 / 2) 0).map AgentDraw.pos =
          some ((n1.x : ℚ), (n1.y : ℚ)))) ∧
    (drawAgent (dirApi 0) planA (ofApp_T planA) (1 / 2) 0).map AgentDraw.x = some (1 / 2) := by
  have hT : ofApp_T planA = 1 := by decide
  have hd : Int.tdiv 1 2 = 0 := by decide
  refine ⟨by rw [hT]; decide, by rw [hT]; norm_num, ?_, ?_⟩
  · exact interpolated_position (dirApi 0) planA 2 0 (1 / 2) (by rw [hT]; decide)
      (by simp [planA]) (by simp [planA]) (by decide) (by norm_num) (by rw [hT]; norm_num)
  · rw [hT]
    simp [drawAgent, cast_int, poseAt, planA, hd]

/-- C9 (as amended): one tick of `ofApp::update` with `time ∈ [0, T]`,
`speed ≥ 0` and `0 ≤ T ≤ 2 ^ 24` (so that `T` is a `float` value). With
autoplay off the time is unchanged. Otherwise let `t` be `time + speed` rounded
to `float` (binary32, round to nearest, ties to even): the new time is `t` when
`t ≤ T`, else `0` when looping and `T` when not. The time stays in `[0, T]`,
and speed, autoplay and loop are unchanged. -/
theorem update_tick (T : Int) (s : Playback) (hT : 0 ≤ T) (hrep : T ≤ 16777216)
    (h0 : 0 ≤ s.timestep_slider) (h1 : s.timestep_slider ≤ (T : ℚ))
    (hs : 0 ≤ s.speed_slider) :
    ∃ s' : Playback, update T s = some s' ∧
      (s.flg_autoplay = false → s'.timestep_slider = s.timestep_slider) ∧
      (s.flg_autoplay = true →
        roundFinite (s.timestep_slider + s.speed_slider) ≤ (T : ℚ) →
        s'.timestep_slider = roundFinite (s.timestep_slider + s.speed_slider)) ∧
      (s.flg_autoplay = true →
        (T : ℚ) < roundFinite (s.timestep_slider + s.speed_slider) →
        s.flg_loop = true → s'.timestep_slider = 0) ∧
      (s.flg_autoplay = true →
        (T : ℚ) < roundFinite (s.timestep_slider + s.speed_slider) →
        s.flg_loop = false → s'.timestep_slider = (T : ℚ)) ∧
      0 ≤ s'.timestep_slider ∧ s'.timestep_slider ≤ (T : ℚ) ∧
      s'.speed_slider = s.speed_slider ∧
      s'.flg_autoplay = s.flg_autoplay ∧
      s'.flg_loop = s.flg_loop := by
  have hTq : (0 : ℚ) ≤ (T : ℚ) := by exact_mod_cast hT
  have hTle : (T : ℚ) ≤ 16777216 := by exact_mod_cast hrep
  have hfT : float_of_int T = (T : ℚ) := float_of_int_exact T hT hrep
  have hr : 0 ≤ roundFinite (s.timestep_slider + s.speed_slider) :=
    roundFinite_nonneg _ (add_nonneg h0 hs)
  have hmax : (16777216 : ℚ) < FLT_MAX := by norm_num [FLT_MAX]
  cases ha : s.flg_autoplay with
  | false =>
    refine ⟨s, by simp [update, ha], ?_⟩
    simp [h0, h1, ha]
  | true =>
    have hadv : advanceTime T s =
        some (if roundFinite (s.timestep_slider + s.speed_slider) ≤ (T : ℚ)
          then { s with timestep_slider := roundFinite (s.timestep_slider + s.speed_slider) }
          else if s.flg_loop then { s with timestep_slider := 0 }
          else { s with timestep_slider := (T : ℚ) }) := by
      unfold advanceTime float_add
      rw [hfT]
      by_cases hbig : FLT_MAX < roundFinite (s.timestep_slider + s.speed_slider)
      · have hnot : ¬ roundFinite (s.timestep_slider + s.speed_slider) ≤ (T : ℚ) := by
          intro hle
          linarith
        simp only [hbig, if_true, hnot, if_false]
        cases s.flg_loop <;> rfl
      · have hneg : ¬ roundFinite (s.timestep_slider + s.speed_slider) < -FLT_MAX := by
          intro hlt
          linarith
        simp only [hbig, hneg, if_false]
        split_ifs <;> rfl
    refine ⟨zoomCamera (if roundFinite (s.timestep_slider + s.speed_slider) ≤ (T : ℚ)
          then { s with timestep_slider := roundFinite (s.timestep_slider + s.speed_slider) }
          else if s.flg_loop then { s with timestep_slider := 0 }
          else { s with timestep_slider := (T : ℚ) }), by simp [update, ha, hadv], ?_⟩
    obtain ⟨e1, e2, e3, e4⟩ := zoomCamera_fields
      (if roundFinite (s.timestep_slider + s.speed_slider) ≤ (T : ℚ)
          then { s with timestep_slider := roundFinite (s.timestep_slider + s.speed_slider) }
          else if s.flg_loop then { s with timestep_slider := 0 }
          else { s with timestep_slider := (T : ℚ) })
    rw [e1, e2, e3, e4]
    by_cases hle : roundFinite (s.timestep_slider + s.speed_slider) ≤ (T : ℚ)
    · have hnot : ¬ ((T : ℚ) < roundFinite (s.timestep_slider + s.speed_slider)) :=
        not_lt.mpr hle
      simp [hle, hnot, hr, ha]
    · have hlt : (T : ℚ) < roundFinite (s.timestep_slider + s.speed_slider) := not_le.mp hle
      cases hl : s.flg_loop <;> simp [hle, hlt, hl, ha, hTq]

/-- A tick from time `0.5` with speed `0.25` on a plan with `T = 1`: the new
time is `0.75`. -/
theorem update_tick_witness :
    (∃ s' : Playback, update 1 midState = some s' ∧
      (midState.flg_autoplay = false → s'.timestep_slider = midState.timestep_slider) ∧
      (midState.flg_autoplay = true →
        roundFinite (midState.timestep_slider + midState.speed_slider) ≤ ((1 : Int) : ℚ) →
        s'.timestep_slider = roundFinite (midState.timestep_slider + midState.speed_slider)) ∧
      (midState.flg_autoplay = true →
        ((1 : Int) : ℚ) < roundFinite (midState.timestep_slider + midState.speed_slider) →
        midState.flg_loop = true → s'.timestep_slider = 0) ∧
      (midState.flg_autoplay = true →
        ((1 : Int) : ℚ) < roundFinite (midState.timestep_slider + midState.speed_slider) →
        midState.flg_loop = false → s'.timestep_slider = ((1 : Int) : ℚ)) ∧
      0 ≤ s'.timestep_slider ∧ s'.timestep_slider ≤ ((1 : Int) : ℚ) ∧
      s'.speed_slider = midState.speed_slider ∧
      s'.flg_autoplay = midState.flg_autoplay ∧
      s'.flg_loop = midState.flg_loop) ∧
    roundFinite (midState.timestep_slider + midState.speed_slider) = 3 / 4 :=
  ⟨update_tick 1 midState (by decide) (by decide)
    (by norm_num [midState]) (by norm_num [midState]) (by norm_num [midState]), by
    have hl : Int.log 2 |(3 / 4 : ℚ)| = -1 := by
      apply log_of_bounds <;> norm_num [abs_of_pos]
    have hs : midState.timestep_slider + midState.speed_slider = 3 / 4 := by
      norm_num [midState]
    rw [hs]
    simp only [roundFinite, ulpF32, hl, roundHalfEven]
    norm_num [abs_of_pos]⟩

/-- C9, the claim as stated fails. With `T = 1`, time `0.8f` and speed `0.2f`
(both `float` values) the exact sum `1 + 2 ^ (-26)` exceeds `T`, but the
`float` sum is `1`: looping, the code stores `1`, not `0`. Likewise for time
`0.5` and speed `0.5 + 2 ^ (-24)`, whose sum lies halfway between two `float`
values. With `T = 16777219`, which is not a `float` value, time `16777218` and
speed `1`, the code stores `16777220`, above `T`. -/
theorem float_sum_counterexample :
    roundFinite tickState.timestep_slider = tickState.timestep_slider ∧
    roundFinite tickState.speed_slider = tickState.speed_slider ∧
    ((1 : Int) : ℚ) < tickState.timestep_slider + tickState.speed_slider ∧
    update 1 tickState = some { tickState with timestep_slider := 1 } ∧
    roundFinite tieState.speed_slider = tieState.speed_slider ∧
    ((1 : Int) : ℚ) < tieState.timestep_slider + tieState.speed_slider ∧
    update 1 tieState = some { tieState with timestep_slider := 1 } ∧
    bigState.timestep_slider ≤ ((16777219 : Int) : ℚ) ∧
    update 16777219 bigState = some { bigState with timestep_slider := 16777220 } := by
  have hone : roundFinite ((1 : Int) : ℚ) = 1 := by
    have := float_of_int_exact 1 (by decide) (by decide)
    simpa [float_of_int] using this
  have h08 : roundFinite (13421773 / 16777216) = 13421773 / 16777216 := by
    have hl : Int.log 2 |(13421773 / 16777216 : ℚ)| = -1 := by
      apply log_of_bounds <;> norm_num [abs_of_pos]
    simp only [roundFinite, ulpF32, hl, roundHalfEven]
    norm_num [abs_of_pos]
  have h02 : roundFinite (13421773 / 67108864) = 13421773 / 67108864 := by
    have hl : Int.log 2 |(13421773 / 67108864 : ℚ)| = -3 := by
      apply log_of_bounds <;> norm_num [abs_of_pos]
    simp only [roundFinite, ulpF32, hl, roundHalfEven]
    norm_num [abs_of_pos]
  have htie : roundFinite (8388609 / 16777216) = 8388609 / 16777216 := by
    have hl : Int.log 2 |(8388609 / 16777216 : ℚ)| = -1 := by
      apply log_of_bounds <;> norm_num [abs_of_pos]
    simp only [roundFinite, ulpF32, hl, roundHalfEven]
    norm_num [abs_of_pos]
  have hsum1 : roundFinite (13421773 / 16777216 + 13421773 / 67108864) = 1 := by
    have e : (13421773 / 16777216 + 13421773 / 67108864 : ℚ) = 67108865 / 67108864 := by
      norm_num
    have hl : Int.log 2 |(67108865 / 67108864 : ℚ)| = 0 := by
      apply log_of_bounds <;> norm_num [abs_of_pos]
    rw [e]
    simp only [roundFinite, ulpF32, hl, roundHalfEven]
    norm_num [abs_of_pos]
  have hsum2 : roundFinite (1 / 2 + 8388609 / 16777216) = 1 := by
    have e : (1 / 2 + 8388609 / 16777216 : ℚ) = 16777217 / 16777216 := by norm_num
    have hl : Int.log 2 |(16777217 / 16777216 : ℚ)| = 0 := by
      apply log_of_bounds <;> norm_num [abs_of_pos]
    rw [e]
    simp only [roundFinite, ulpF32, hl, roundHalfEven]
    norm_num [abs_of_pos]
  have hmax : ¬ (FLT_MAX < 1) := by norm_num [FLT_MAX]
  have hmin : ¬ ((1 : ℚ) < -FLT_MAX) := by norm_num [FLT_MAX]
  have hle : (1 : ℚ) ≤ float_of_int 1 := by
    rw [show float_of_int 1 = roundFinite ((1 : Int) : ℚ) from rfl, hone]
  have hbigT : float_of_int 16777219 = 16777220 := by
    have hl : Int.log 2 |(((16777219 : Int) : ℚ))| = 24 := by
      apply log_of_bounds <;> norm_num [abs_of_pos]
    simp only [float_of_int, roundFinite, ulpF32, hl, roundHalfEven]
    norm_num [abs_of_pos]
  have hbigsum : roundFinite (16777218 + 1) = 16777220 := by
    have e : (16777218 + 1 : ℚ) = 16777219 := by norm_num
    have hl : Int.log 2 |(16777219 : ℚ)| = 24 := by
      apply log_of_bounds <;> norm_num [abs_of_pos]
    rw [e]
    simp only [roundFinite, ulpF32, hl, roundHalfEven]
    norm_num [abs_of_pos]
  have hbmax : ¬ (FLT_MAX < 16777220) := by norm_num [FLT_MAX]
  have hbmin : ¬ ((16777220 : ℚ) < -FLT_MAX) := by norm_num [FLT_MAX]
  exact ⟨h08, h02, by norm_num [tickState],
    update_of_finite_sum 1 tickState 1 rfl hsum1 hmax hmin hle rfl rfl,
    htie, by norm_num [tieState],
    update_of_finite_sum 1 tieState 1 rfl hsum2 hmax hmin hle rfl rfl,
    by norm_num [bigState],
    update_of_finite_sum 16777219 bigState 16777220 rfl hbigsum hbmax hbmin
      (by rw [hbigT]) rfl rfl⟩

/-- C10, the code at the failing input: the lines `0:(0,0,X_MINUS),` and
`1:(1,0),` parse to a plan with an orientation at timestep 0 and `NONE` at
timestep 1; at time `0.5` the marker is drawn and the heading is blended
towards the number that `to_angle` gives for `NONE`: `90` when that number is
`0`, `135` when it is `90`. -/
theorem heading_blend_uses_angle_of_none :
    parseLines (dirApi 0) grid3 ["0:(0,0,X_MINUS),".toList, "1:(1,0),".toList] =
      .ok ⟨planMixed, ⟨none, []⟩, false, -1, -1⟩ ∧
    drawAgent (dirApi 0) planMixed 1 (1 / 2) 0 = some ⟨1 / 2, 0, 90, true⟩ ∧
    drawAgent (dirApi 90) planMixed 1 (1 / 2) 0 = some ⟨1 / 2, 0, 135, true⟩ := by
  have hd : Int.tdiv 1 2 = 0 := by decide
  refine ⟨by rfl, ?_, ?_⟩
  · simp [drawAgent, cast_int, poseAt, planMixed, dirApi, hd, blendAngle, normDiff]
    norm_num
  · simp [drawAgent, cast_int, poseAt, planMixed, dirApi, hd, blendAngle, normDiff]
    norm_num

end MapfVisualizer
